/-
  Verification of the fcstern-pitch-planner BFV ingestion pipeline.

  Shallow embedding of the relevant TypeScript sources:
    - src/src/app/api/bfv/ics/route.ts   (the server route; first variant in the file)
    - src/src/app/bfv/page.tsx           (the client ICS parser and home/away classifier)

  JavaScript strings are represented as `List Char` (`Str`).  String-valued
  platform primitives (regex replaces, `String.prototype` methods, WHATWG URL
  parsing, Unicode normalization) are re-implemented as executable Lean
  functions; each such model is documented at its definition with the exact
  source construct it embeds.
-/
import Mathlib

set_option maxHeartbeats 1000000
set_option maxRecDepth 10000

/-- JavaScript strings, modelled as lists of characters. -/
abbrev Str := List Char

/-- Decidable substring test: `pat` occurs contiguously inside `s`
(model of JS `String.prototype.includes`). -/
def containsSub (s pat : Str) : Bool :=
  decide (pat <:+: s)

/-- Model of the JS whitespace class `\s` (the members relevant to this
code base: ASCII whitespace and the no-break space). -/
def isJsWs (c : Char) : Bool :=
  c = ' ' || c = '\t' || c = '\n' || c = '\r' || c = '\x0b' || c = '\x0c' || c = ' '

/-- Model of JS `String.prototype.trimStart`. -/
def trimStartL (s : Str) : Str :=
  s.dropWhile (fun c => isJsWs c)

/-- Model of JS `String.prototype.trim`. -/
def trimL (s : Str) : Str :=
  ((trimStartL s.reverse).reverse).dropWhile (fun c => isJsWs c)

/-- Model of JS `String.prototype.startsWith`. -/
def startsWithL (s pat : Str) : Bool :=
  decide (pat <+: s)

/- =========================
   C2: the ICS value escaper (route.ts, `escapeIcsValue`, lines 50-56)
========================= -/

/-- One global literal replace `s.replace(/target/g, repl)` for a
single-character pattern, as used by `escapeIcsValue`. -/
def replAll (target : Char) (repl : Str) : Str → Str
  | [] => []
  | c :: rest => (if c = target then repl else [c]) ++ replAll target repl rest

/-- Embeds `escapeIcsValue` from route.ts: the four global replaces
backslash → `\\`, newline → `\n`, `;` → `\;`, `,` → `\,`, applied in
exactly that order. -/
def escapeIcsValue (s : Str) : Str :=
  replAll ',' ['\\', ',']
    (replAll ';' ['\\', ';']
      (replAll '\n' ['\\', 'n']
        (replAll '\\' ['\\', '\\'] s)))

/-- The per-character escaping map the spec (§4.8) describes. -/
def escCharSpec (c : Char) : Str :=
  if c = '\\' then ['\\', '\\']
  else if c = '\n' then ['\\', 'n']
  else if c = ';' then ['\\', ';']
  else if c = ',' then ['\\', ',']
  else [c]

/-- Modelled from the spec: §4.3's text unescaping is absent from src/ (the
client parser never unescapes), so it is modelled here as the single-pass,
ordered substitution the spec mandates: `\\`, `\n`, `\;`, `\,` become
backslash, newline, semicolon, comma; other text is copied. -/
def unescapeIcs : Str → Str
  | [] => []
  | [c] => [c]
  | c :: d :: rest =>
    if c = '\\' then
      if d = '\\' then '\\' :: unescapeIcs rest
      else if d = 'n' then '\n' :: unescapeIcs rest
      else if d = ';' then ';' :: unescapeIcs rest
      else if d = ',' then ',' :: unescapeIcs rest
      else '\\' :: unescapeIcs (d :: rest)
    else c :: unescapeIcs (d :: rest)

theorem replAll_append (t : Char) (r : Str) (a b : Str) :
    replAll t r (a ++ b) = replAll t r a ++ replAll t r b := by
  induction a with
  | nil => rfl
  | cons c rest ih => simp [replAll, ih]

theorem escapeIcsValue_append (a b : Str) :
    escapeIcsValue (a ++ b) = escapeIcsValue a ++ escapeIcsValue b := by
  simp [escapeIcsValue, replAll_append]

theorem escapeIcsValue_cons (c : Char) (s : Str) :
    escapeIcsValue (c :: s) = escCharSpec c ++ escapeIcsValue s := by
  have h : escapeIcsValue (c :: s) = escapeIcsValue [c] ++ escapeIcsValue s := by
    simpa using escapeIcsValue_append [c] s
  rw [h]
  congr 1
  by_cases h1 : c = '\\'
  · subst h1; rfl
  · by_cases h2 : c = '\n'
    · subst h2; rfl
    · by_cases h3 : c = ';'
      · subst h3; rfl
      · by_cases h4 : c = ','
        · subst h4; rfl
        · simp [escapeIcsValue, replAll, escCharSpec, h1, h2, h3, h4]

theorem unescape_escape (s : Str) : unescapeIcs (escapeIcsValue s) = s := by
  induction s with
  | nil => rfl
  | cons c rest ih =>
    rw [escapeIcsValue_cons]
    by_cases h1 : c = '\\'
    · subst h1; simp [escCharSpec, unescapeIcs, ih]
    · by_cases h2 : c = '\n'
      · subst h2; simp [escCharSpec, unescapeIcs, h1, ih]
      · by_cases h3 : c = ';'
        · subst h3; simp [escCharSpec, unescapeIcs, h1, h2, ih]
        · by_cases h4 : c = ','
          · subst h4; simp [escCharSpec, unescapeIcs, h1, h2, h3, ih]
          · have hne : escCharSpec c = [c] := by
              simp [escCharSpec, h1, h2, h3, h4]
            rw [hne]
            cases hE : escapeIcsValue rest with
            | nil =>
              have : rest = [] := by rw [← ih, hE]; rfl
              subst this
              simp [unescapeIcs]
            | cons d tl =>
              rw [hE] at ih
              simp only [List.singleton_append]
              simp [unescapeIcs, h1, ih]

/-- C2: the serializer's escaper applies backslash → double-backslash, then
newline → `\n`, then `;` → `\;`, then `,` → `\,`, in exactly that order
(equivalently: it is the per-character map `escCharSpec` applied to every
character), and §4.3-unescaping the escaped form restores every input
string: `unescape (escape s) = s`. -/
theorem escape_order_and_roundtrip (s : Str) :
    escapeIcsValue s = s.flatMap escCharSpec ∧ unescapeIcs (escapeIcsValue s) = s := by
  constructor
  · induction s with
    | nil => rfl
    | cons c rest ih => rw [escapeIcsValue_cons, ih]; rfl
  · exact unescape_escape s

/- =========================
   URL model and the route's pre-fetch validation
   (route.ts, `isAllowedHost` lines 15-24, `GET` lines 435-457)
========================= -/

/-- Model of JS `String.prototype.toLowerCase` for the characters occurring
in this development (ASCII letters and the German capital umlauts). -/
def jsToLower (c : Char) : Char :=
  if 'A' ≤ c ∧ c ≤ 'Z' then Char.ofNat (c.toNat + 32)
  else if c = 'Ä' then 'ä'
  else if c = 'Ö' then 'ö'
  else if c = 'Ü' then 'ü'
  else c

def toLowerL (s : Str) : Str :=
  s.map jsToLower

def endsWithL (s pat : Str) : Bool :=
  decide (pat <:+ s)

/-- Split a string at the first occurrence of the substring `pat`, removing
it; `none` when `pat` does not occur. -/
def splitOnFirstSub (pat : Str) : Str → Option (Str × Str)
  | [] => if pat = [] then some ([], []) else none
  | c :: rest =>
    if startsWithL (c :: rest) pat then some ([], (c :: rest).drop pat.length)
    else
      match splitOnFirstSub pat rest with
      | none => none
      | some (a, b) => some (c :: a, b)

/-- Split at the first character belonging to `stop`: returns the part
before it and the remainder starting with the stop character. -/
def breakAtSet (stop : List Char) : Str → Str × Str
  | [] => ([], [])
  | c :: rest =>
    if c ∈ stop then ([], c :: rest)
    else
      let p := breakAtSet stop rest
      (c :: p.1, p.2)

def isSchemeChar (c : Char) : Bool :=
  c.isAlpha || c.isDigit || c = '+' || c = '-' || c = '.'

/-- The pieces of a parsed URL the route reads (`u.protocol`,
`u.hostname`, `u.pathname`, the query string). -/
structure UrlT where
  protocol : Str
  hostname : Str
  pathname : Str
  query : Str
deriving Repr, DecidableEq

/-- Model of the WHATWG `new URL(s)` constructor used by the route,
faithful for absolute URLs of the shape `scheme://host[:port][/path][?query]`
without userinfo: the scheme and host are lowercased, `protocol` keeps the
trailing colon, the port is not part of `hostname`.  URLs without a
`://` separator or with an invalid scheme parse to `none` (the route's
`catch` branch). -/
def parseUrl (s : Str) : Option UrlT :=
  match splitOnFirstSub ("://".toList) s with
  | none => none
  | some (scheme, rest) =>
    if scheme ≠ [] ∧ (scheme.head?.elim false Char.isAlpha) ∧ scheme.all isSchemeChar then
      let auth := breakAtSet ['/', '?', '#'] rest
      let host := (breakAtSet [':'] auth.1).1
      if host = [] then none
      else
        let pathQuery : Str × Str :=
          match auth.2 with
          | '/' :: _ =>
            let p := breakAtSet ['?', '#'] auth.2
            (p.1,
              match p.2 with
              | '?' :: qs => (breakAtSet ['#'] qs).1
              | _ => [])
          | '?' :: qs => (['/'], (breakAtSet ['#'] qs).1)
          | _ => (['/'], [])
        some { protocol := toLowerL scheme ++ [':'], hostname := toLowerL host,
               pathname := pathQuery.1, query := pathQuery.2 }
    else none

/-- Embeds `isAllowedHost` from route.ts: lowercase the host, then allow
exactly `service.bfv.de`, `bfv.de`, `*.bfv.de`, `app.bfv.de`,
`*.app.bfv.de`. -/
def isAllowedHost (host : Str) : Bool :=
  let h := toLowerL host
  h = ("service.bfv.de".toList) || h = ("bfv.de".toList) ||
    endsWithL h (".bfv.de".toList) || h = ("app.bfv.de".toList) ||
    endsWithL h (".app.bfv.de".toList)

/-- Outcome of the `GET` handler up to (and excluding) its first network
fetch: either one of the early error responses, or the decision to fetch
the validated URL. -/
inductive RoutePre where
  | missingUrl
  | invalidUrl
  | schemeRejected
  | hostRejected
  | fetchFrom (u : UrlT)
deriving Repr, DecidableEq

/-- Embeds the validation prefix of `GET` (route.ts lines 435-457), i.e.
everything that runs before `fetchText`: missing/empty `url` param → 400,
unparseable URL → 400, `u.protocol !== "https:"` → 400 ("Only https
allowed"), `!isAllowedHost(u.hostname)` → 403 ("Host not allowed"),
otherwise the handler proceeds to fetch `u`. -/
def routePre (urlParam : Option Str) : RoutePre :=
  match urlParam with
  | none => .missingUrl
  | some s =>
    if s = [] then .missingUrl
    else
      match parseUrl s with
      | none => .invalidUrl
      | some u =>
        if u.protocol ≠ ("https:".toList) then .schemeRejected
        else if ¬ isAllowedHost u.hostname then .hostRejected
        else .fetchFrom u

/-- HTTP status of each early-error response of `GET`. -/
def routeErrStatus : RoutePre → Option Nat
  | .missingUrl => some 400
  | .invalidUrl => some 400
  | .schemeRejected => some 400
  | .hostRejected => some 403
  | .fetchFrom _ => none

theorem parseUrl_nil : parseUrl [] = none := rfl

/-- C4: any request whose `url` is a well-formed https URL with a hostname
failing the allow-list is answered with the "Host not allowed" error,
HTTP status 403, and the handler never reaches its network fetch. -/
theorem host_not_allowed_is_403_before_fetch (s : Str) (u : UrlT)
    (hp : parseUrl s = some u)
    (hs : u.protocol = ("https:".toList))
    (hh : isAllowedHost u.hostname = false) :
    routePre (some s) = .hostRejected ∧
      routeErrStatus (routePre (some s)) = some 403 ∧
      ∀ v, routePre (some s) ≠ .fetchFrom v := by
  have hne : s ≠ [] := by
    intro h
    rw [h, parseUrl_nil] at hp
    exact Option.noConfusion hp
  have hout : routePre (some s) = .hostRejected := by
    simp [routePre, hne, hp, hs, hh]
  refine ⟨hout, ?_, ?_⟩
  · rw [hout]; rfl
  · intro v hv
    rw [hout] at hv
    exact RoutePre.noConfusion hv

theorem host_not_allowed_witness :
    parseUrl ("https://evil.example.com/x.ics".toList) =
        some { protocol := ("https:".toList),
               hostname := ("evil.example.com".toList),
               pathname := ("/x.ics".toList), query := [] } ∧
      routePre (some ("https://evil.example.com/x.ics".toList)) = .hostRejected ∧
      routeErrStatus (routePre (some ("https://evil.example.com/x.ics".toList))) = some 403 := by
  have h1 : parseUrl ("https://evil.example.com/x.ics".toList) =
      some { protocol := ("https:".toList),
             hostname := ("evil.example.com".toList),
             pathname := ("/x.ics".toList), query := [] } := by decide
  have h2 := host_not_allowed_is_403_before_fetch ("https://evil.example.com/x.ics".toList)
    { protocol := ("https:".toList), hostname := ("evil.example.com".toList),
      pathname := ("/x.ics".toList), query := [] } h1 rfl (by decide)
  exact ⟨h1, h2.1, h2.2.1⟩

/-- C3 counterexample: a request with `url=webcal://service.bfv.de/x.ics`
is rejected by the scheme check with HTTP 400 ("Only https allowed") — the
scheme is not rewritten to `https://` and the request is not processed. -/
theorem webcal_is_rejected_not_rewritten :
    routePre (some ("webcal://service.bfv.de/x.ics".toList)) = .schemeRejected ∧
      routeErrStatus (routePre (some ("webcal://service.bfv.de/x.ics".toList))) = some 400 := by
  constructor
  · decide
  · decide

/-- C3 (amended): no `webcal://` rewriting exists; every parseable URL
whose scheme is not exactly `https` — including every `webcal://` URL —
is answered with the "Only https allowed" error, HTTP 400, and never
processed further. -/
theorem non_https_scheme_always_rejected (s : Str) (u : UrlT)
    (hp : parseUrl s = some u)
    (hs : u.protocol ≠ ("https:".toList)) :
    routePre (some s) = .schemeRejected ∧
      routeErrStatus (routePre (some s)) = some 400 ∧
      ∀ v, routePre (some s) ≠ .fetchFrom v := by
  have hne : s ≠ [] := by
    intro h
    rw [h, parseUrl_nil] at hp
    exact Option.noConfusion hp
  have hout : routePre (some s) = .schemeRejected := by
    simp [routePre, hne, hp, hs]
    intro hcontra
    exact absurd hcontra hs
  refine ⟨hout, ?_, ?_⟩
  · rw [hout]; rfl
  · intro v hv
    rw [hout] at hv
    exact RoutePre.noConfusion hv

theorem non_https_scheme_witness :
    routePre (some ("webcal://www.bfv.de/x".toList)) = .schemeRejected ∧
      routeErrStatus (routePre (some ("webcal://www.bfv.de/x".toList))) = some 400 := by
  have h1 : parseUrl ("webcal://www.bfv.de/x".toList) =
      some { protocol := ("webcal:".toList), hostname := ("www.bfv.de".toList),
             pathname := ("/x".toList), query := [] } := by decide
  have h2 := non_https_scheme_always_rejected ("webcal://www.bfv.de/x".toList)
    { protocol := ("webcal:".toList), hostname := ("www.bfv.de".toList),
      pathname := ("/x".toList), query := [] } h1 (by decide)
  exact ⟨h2.1, h2.2.1⟩

/- =========================
   C10: format detection and ICS passthrough
   (route.ts, `looksLikeIcs` lines 26-28, `GET` lines 459-476)
========================= -/

/-- Case-insensitive character comparison, the model of how the regex
`i` flag compares the ASCII pattern `BEGIN:VCALENDAR` against text. -/
def ciEqChar (a b : Char) : Bool :=
  jsToLower a = jsToLower b

def ciIsPrefixOf : Str → Str → Bool
  | [], _ => true
  | _ :: _, [] => false
  | p :: ps, c :: cs => ciEqChar p c && ciIsPrefixOf ps cs

def ciContainsAux (pat : Str) : Str → Bool
  | [] => ciIsPrefixOf pat []
  | c :: rest => ciIsPrefixOf pat (c :: rest) || ciContainsAux pat rest

/-- Embeds `looksLikeIcs` from route.ts: `/BEGIN:VCALENDAR/i.test(text)`,
i.e. a case-insensitive substring test for `BEGIN:VCALENDAR`. -/
def looksLikeIcs (text : Str) : Bool :=
  ciContainsAux ("BEGIN:VCALENDAR".toList) text

/-- Outcome of the `GET` handler between its primary fetch and the HTML
pipeline: the 502 upstream-failure response (with the body snippet
truncated to 800 characters), the ICS passthrough response (status 200,
body exactly the fetched text), or continuation into HTML scraping with
the fetched text. -/
inductive RouteFetchStep where
  | upstreamFailed (respStatus upstreamStatus : Nat) (snippet : Str)
  | icsPassthrough (respStatus : Nat) (body : Str)
  | htmlPipeline (baseHtml : Str)
deriving Repr, DecidableEq

/-- Embeds `GET` lines 459-476: `!ok` → 502 JSON error with
`text.slice(0, 800)`; `looksLikeIcs(text)` → `new NextResponse(text)` with
status 200 (the fetched body returned verbatim); otherwise the handler
continues into the HTML-scraping pipeline on `text`. -/
def routeAfterFetch (ok : Bool) (status : Nat) (text : Str) : RouteFetchStep :=
  if !ok then .upstreamFailed 502 status (text.take 800)
  else if looksLikeIcs text then .icsPassthrough 200 text
  else .htmlPipeline text

theorem ciIsPrefixOf_of_toLower (pat mid b : Str)
    (h : toLowerL mid = toLowerL pat) : ciIsPrefixOf pat (mid ++ b) = true := by
  induction pat generalizing mid with
  | nil => simp [ciIsPrefixOf]
  | cons p ps ih =>
    cases mid with
    | nil => simp [toLowerL] at h
    | cons c cs =>
      simp only [toLowerL, List.map_cons, List.cons.injEq] at h
      simp [ciIsPrefixOf, ciEqChar, h.1, ih cs h.2]

theorem ciContainsAux_of_mid (pat a s : Str)
    (h : ciIsPrefixOf pat s = true) : ciContainsAux pat (a ++ s) = true := by
  induction a with
  | nil =>
    cases s with
    | nil => simpa [ciContainsAux] using h
    | cons c cs => simp [ciContainsAux, h]
  | cons c cs ih => simp [ciContainsAux, ih]

/-- C10: whenever the primary fetch succeeds and the fetched body contains
`BEGIN:VCALENDAR` case-insensitively (stated as an explicit substring
decomposition), the handler's response is the ICS passthrough: HTTP 200
with body exactly the fetched text, unchanged — the HTML pipeline
(parsing, cleaning, de-duplication, re-serialization) is not entered. -/
theorem ics_passthrough_verbatim (status : Nat) (text : Str)
    (h : ∃ a mid b, text = a ++ mid ++ b ∧
      toLowerL mid = ("begin:vcalendar".toList)) :
    routeAfterFetch true status text = .icsPassthrough 200 text := by
  obtain ⟨a, mid, b, hdecomp, hmid⟩ := h
  have hlow : toLowerL mid = toLowerL ("BEGIN:VCALENDAR".toList) := by
    rw [hmid]; decide
  have hpre := ciIsPrefixOf_of_toLower ("BEGIN:VCALENDAR".toList) mid b hlow
  have hics : looksLikeIcs text = true := by
    rw [hdecomp, List.append_assoc]
    exact ciContainsAux_of_mid ("BEGIN:VCALENDAR".toList) a (mid ++ b) hpre
  simp [routeAfterFetch, hics]

theorem ics_passthrough_witness :
    routeAfterFetch true 200 ("begin:Vcalendar\r\nEND:VCALENDAR\r\n".toList) =
      .icsPassthrough 200 ("begin:Vcalendar\r\nEND:VCALENDAR\r\n".toList) := by
  exact ics_passthrough_verbatim 200 ("begin:Vcalendar\r\nEND:VCALENDAR\r\n".toList)
    ⟨[], ("begin:Vcalendar".toList), ("\r\nEND:VCALENDAR\r\n".toList), by decide, by decide⟩

/- =========================
   C5: the pagination loader
   (route.ts, `setFrom` lines 373-377, `loadBfvPartialSpielplanAll` lines 379-401)
========================= -/

/-- JS `String.prototype.split` on a single-character separator. -/
def splitOnCharL (sep : Char) : Str → List Str
  | [] => [[]]
  | c :: rest =>
    match splitOnCharL sep rest with
    | [] => []
    | h :: t => if c = sep then [] :: h :: t else (c :: h) :: t

/-- One `key=value` query segment (no `=` means an empty value). -/
def pairOfSeg (s : Str) : Str × Str :=
  let p := breakAtSet ['='] s
  (p.1, p.2.drop 1)

/-- Model of `URLSearchParams` over a raw query string (percent-decoding is
not modelled; the URLs in this pipeline carry plain ASCII parameters). -/
def paramsOfQuery (q : Str) : List (Str × Str) :=
  if q = [] then [] else ((splitOnCharL '&' q).filter (fun seg => seg ≠ [])).map pairOfSeg

/-- The query-string portion of a URL (after `?`, before any `#`). -/
def queryOfUrl (url : Str) : Str :=
  match (breakAtSet ['?'] url).2 with
  | '?' :: qs => (breakAtSet ['#'] qs).1
  | _ => []

/-- Model of `u.searchParams.get(key)`: the value of the first matching
parameter, `none` when absent. -/
def getQueryParam (url : Str) (key : Str) : Option Str :=
  ((paramsOfQuery (queryOfUrl url)).find? (fun p => decide (p.1 = key))).map (fun p => p.2)

/-- Model of `URLSearchParams.set`: replace the first occurrence of `key`
(removing any later duplicates), or append when absent. -/
def setParam : List (Str × Str) → Str → Str → List (Str × Str)
  | [], key, v => [(key, v)]
  | p :: rest, key, v =>
    if p.1 = key then (key, v) :: rest.filter (fun q => decide (q.1 ≠ key))
    else p :: setParam rest key v

def renderQuery (ps : List (Str × Str)) : Str :=
  List.intercalate ['&'] (ps.map (fun p => p.1 ++ '=' :: p.2))

/-- Embeds `setFrom` from route.ts: parse the URL, `searchParams.set("from",
String(n))`, re-serialize. -/
def setFrom (url : Str) (n : Int) : Str :=
  let pre := (breakAtSet ['?'] url).1
  let ps := paramsOfQuery (queryOfUrl url)
  pre ++ '?' :: renderQuery (setParam ps ("from".toList) ((toString n).toList))

def parseDigits (s : Str) : Option Nat :=
  if s ≠ [] ∧ s.all Char.isDigit then
    some (s.foldl (fun a c => a * 10 + (c.toNat - 48)) 0)
  else none

/-- Model of JS `Number(s)` restricted to optionally-signed decimal integer
literals with surrounding whitespace; every other string is NaN (`none`).
The empty string is `0`, as in JS. -/
def jsNumberInt (s : Str) : Option Int :=
  let t := trimL s
  if t = [] then some 0
  else
    match t with
    | '-' :: rest => (parseDigits rest).map (fun k => -(k : Int))
    | '+' :: rest => (parseDigits rest).map (fun k => (k : Int))
    | _ => (parseDigits t).map (fun k => (k : Int))

/-- Embeds `Number(u0.searchParams.get("size") || "5") || 5` from
`loadBfvPartialSpielplanAll`: a missing or empty `size` parameter falls
back to the string `"5"`, and a NaN or zero numeric value falls back to
the number 5. -/
def bfvPageSize (moreUrl : Str) : Int :=
  let raw :=
    match getQueryParam moreUrl ("size".toList) with
    | none => ("5".toList)
    | some v => if v = [] then ("5".toList) else v
  match jsNumberInt raw with
  | none => 5
  | some k => if k = 0 then 5 else k

/-- Result of `fetchText` as the pagination loop reads it. -/
structure FetchRes where
  ok : Bool
  text : Str
deriving Repr, DecidableEq

/-- The page loop of `loadBfvPartialSpielplanAll` (route.ts lines 386-398),
with the network modelled as a function from URL to `FetchRes` and the
sha1 content hash modelled by the content itself (hashing is assumed
collision-free, so `seenHashes.has(h)` is membership of the body in the
set of previously fetched bodies).  The fuel argument counts the pages
remaining up to `maxPages`. -/
def loadPartsAux (moreUrl : Str) (size : Int) (fetch : Str → FetchRes) :
    Nat → Nat → List Str → List Str
  | 0, _, _ => []
  | Nat.succ fuel, page, seen =>
    let r := fetch (setFrom moreUrl ((page : Int) * size))
    if r.ok = false ∨ r.text = [] ∨ r.text.length < 50 then []
    else if r.text ∈ seen then []
    else r.text :: loadPartsAux moreUrl size fetch fuel (page + 1) (r.text :: seen)

/-- The pages collected by `loadBfvPartialSpielplanAll` with the route's
`maxPages = 12`. -/
def loadParts (moreUrl : Str) (fetch : Str → FetchRes) : List Str :=
  loadPartsAux moreUrl (bfvPageSize moreUrl) fetch 12 0 []

/-- Embeds `loadBfvPartialSpielplanAll` from route.ts: the collected page
bodies joined with `"\n"` (`parts.join("\n")`). -/
def loadBfvPartialSpielplanAll (moreUrl : Str) (fetch : Str → FetchRes) : Str :=
  List.intercalate ['\n'] (loadParts moreUrl fetch)

theorem loadPartsAux_succ (moreUrl : Str) (size : Int) (fetch : Str → FetchRes)
    (fuel page : Nat) (seen : List Str) :
    loadPartsAux moreUrl size fetch (fuel + 1) page seen =
      (if (fetch (setFrom moreUrl ((page : Int) * size))).ok = false ∨
          (fetch (setFrom moreUrl ((page : Int) * size))).text = [] ∨
          (fetch (setFrom moreUrl ((page : Int) * size))).text.length < 50 then []
       else if (fetch (setFrom moreUrl ((page : Int) * size))).text ∈ seen then []
       else (fetch (setFrom moreUrl ((page : Int) * size))).text ::
         loadPartsAux moreUrl size fetch fuel (page + 1)
           ((fetch (setFrom moreUrl ((page : Int) * size))).text :: seen)) := rfl

theorem loadPartsAux_length_le (moreUrl : Str) (size : Int) (fetch : Str → FetchRes) :
    ∀ fuel page seen, (loadPartsAux moreUrl size fetch fuel page seen).length ≤ fuel := by
  intro fuel
  induction fuel with
  | zero => intro page seen; simp [loadPartsAux]
  | succ n ih =>
    intro page seen
    rw [loadPartsAux_succ]
    split
    · simp
    · split
      · simp
      · simpa using Nat.succ_le_succ (ih (page + 1) _)

theorem loadPartsAux_get (moreUrl : Str) (size : Int) (fetch : Str → FetchRes) :
    ∀ fuel page seen i, i < (loadPartsAux moreUrl size fetch fuel page seen).length →
      (loadPartsAux moreUrl size fetch fuel page seen)[i]? =
          some (fetch (setFrom moreUrl (((page + i : Nat) : Int) * size))).text ∧
        (fetch (setFrom moreUrl (((page + i : Nat) : Int) * size))).ok = true ∧
        50 ≤ (fetch (setFrom moreUrl (((page + i : Nat) : Int) * size))).text.length := by
  intro fuel
  induction fuel with
  | zero => intro page seen i h; simp [loadPartsAux] at h
  | succ n ih =>
    intro page seen i h
    rw [loadPartsAux_succ] at h ⊢
    by_cases hc1 : (fetch (setFrom moreUrl ((page : Int) * size))).ok = false ∨
        (fetch (setFrom moreUrl ((page : Int) * size))).text = [] ∨
        (fetch (setFrom moreUrl ((page : Int) * size))).text.length < 50
    · rw [if_pos hc1] at h; simp at h
    · rw [if_neg hc1] at h ⊢
      by_cases hc2 : (fetch (setFrom moreUrl ((page : Int) * size))).text ∈ seen
      · rw [if_pos hc2] at h; simp at h
      · rw [if_neg hc2] at h ⊢
        have hok : (fetch (setFrom moreUrl ((page : Int) * size))).ok = true := by
          rcases Bool.eq_false_or_eq_true (fetch (setFrom moreUrl ((page : Int) * size))).ok with ht | hf
          · exact ht
          · exact absurd (Or.inl hf) hc1
        have hlen : 50 ≤ (fetch (setFrom moreUrl ((page : Int) * size))).text.length := by
          by_contra hlt
          exact hc1 (Or.inr (Or.inr (Nat.lt_of_not_le hlt)))
        cases i with
        | zero =>
          refine ⟨by simp, by simpa using hok, by simpa using hlen⟩
        | succ j =>
          have hlt : j < (loadPartsAux moreUrl size fetch n (page + 1)
              ((fetch (setFrom moreUrl ((page : Int) * size))).text :: seen)).length := by
            simpa using Nat.lt_of_succ_lt_succ h
          have hrec := ih (page + 1) _ j hlt
          have harg : page + 1 + j = page + (j + 1) := by omega
          rw [harg] at hrec
          simpa using hrec

/-- C5: the pagination loader (a) returns the fetched bodies newline-joined
in fetch order, (b) fetches at most 12 pages, (c) requests page `i` at the
`from` offset `i * size` and keeps only successful bodies of length ≥ 50,
(d) takes `size` from the endpoint's query, defaulting to 5 when absent,
and (e) stops after page 1 when page 1 repeats page 0's body, returning
just the one body. -/
theorem pagination_loader_contract (moreUrl : Str) (fetch : Str → FetchRes) :
    loadBfvPartialSpielplanAll moreUrl fetch =
        List.intercalate ['\n'] (loadParts moreUrl fetch) ∧
      (loadParts moreUrl fetch).length ≤ 12 ∧
      (∀ i, i < (loadParts moreUrl fetch).length →
        (loadParts moreUrl fetch)[i]? =
            some (fetch (setFrom moreUrl ((i : Int) * bfvPageSize moreUrl))).text ∧
          (fetch (setFrom moreUrl ((i : Int) * bfvPageSize moreUrl))).ok = true ∧
          50 ≤ (fetch (setFrom moreUrl ((i : Int) * bfvPageSize moreUrl))).text.length) ∧
      (getQueryParam moreUrl ("size".toList) = none → bfvPageSize moreUrl = 5) ∧
      ((fetch (setFrom moreUrl 0)).ok = true →
        50 ≤ (fetch (setFrom moreUrl 0)).text.length →
        fetch (setFrom moreUrl (1 * bfvPageSize moreUrl)) = fetch (setFrom moreUrl 0) →
        loadParts moreUrl fetch = [(fetch (setFrom moreUrl 0)).text]) := by
  refine ⟨rfl, loadPartsAux_length_le _ _ _ 12 0 [], ?_, ?_, ?_⟩
  · intro i h
    have := loadPartsAux_get moreUrl (bfvPageSize moreUrl) fetch 12 0 [] i h
    simpa using this
  · intro habs
    have hmatch : bfvPageSize moreUrl =
        (match jsNumberInt ("5".toList) with
         | none => 5
         | some k => if k = 0 then 5 else k) := by
      unfold bfvPageSize
      rw [habs]
    rw [hmatch]
    decide
  · intro hok hlen hrep
    have hne : (fetch (setFrom moreUrl 0)).text ≠ [] := by
      intro hnil
      rw [hnil] at hlen
      simp at hlen
    have harg0 : (((0 : Nat) : Int) * bfvPageSize moreUrl) = (0 : Int) := by simp
    have harg1 : (((1 : Nat) : Int) * bfvPageSize moreUrl) = 1 * bfvPageSize moreUrl := by
      norm_num
    have hc1 : ¬ ((fetch (setFrom moreUrl 0)).ok = false ∨
        (fetch (setFrom moreUrl 0)).text = [] ∨
        (fetch (setFrom moreUrl 0)).text.length < 50) := by
      push_neg
      exact ⟨by simp [hok], hne, by omega⟩
    show loadPartsAux moreUrl (bfvPageSize moreUrl) fetch (11 + 1) 0 [] = _
    rw [loadPartsAux_succ, harg0, if_neg hc1, if_neg (by simp)]
    show _ :: loadPartsAux moreUrl (bfvPageSize moreUrl) fetch (10 + 1) 1 _ = _
    rw [loadPartsAux_succ, harg1, hrep, if_neg hc1, if_pos (by simp)]

/-- C5 witness: a source whose every page is the same 56-character body
stops after the repeat on page 1 and returns just that body; with no
`size` parameter the page size is 5. -/
theorem pagination_loader_witness :
    loadParts ("https://www.bfv.de/partial/x".toList)
        (fun _ => { ok := true, text := ("01234567890123456789012345678901234567890123456789abcdef".toList) }) =
      [("01234567890123456789012345678901234567890123456789abcdef".toList)] ∧
    bfvPageSize ("https://www.bfv.de/partial/x".toList) = 5 := by
  constructor
  · exact (pagination_loader_contract ("https://www.bfv.de/partial/x".toList)
      (fun _ => { ok := true, text := ("01234567890123456789012345678901234567890123456789abcdef".toList) })).2.2.2.2
      rfl (by decide) rfl
  · exact (pagination_loader_contract ("https://www.bfv.de/partial/x".toList)
      (fun _ => { ok := true, text := ("01234567890123456789012345678901234567890123456789abcdef".toList) })).2.2.2.1
      (by decide)

/- =========================
   C6/C7: the client ICS parser
   (page.tsx, `unfoldIcsLines` lines 72-80, `parseIcs` lines 82-141)
========================= -/

def replaceSubAllAux (p0 : Char) (prest repl : Str) : Nat → Str → Str
  | 0, s => s
  | _ + 1, [] => []
  | n + 1, c :: rest =>
    if startsWithL (c :: rest) (p0 :: prest) then
      repl ++ replaceSubAllAux p0 prest repl n (rest.drop prest.length)
    else c :: replaceSubAllAux p0 prest repl n rest

/-- Global literal substring replace `raw.replace(/pat/g, repl)` for a
non-empty pattern `p0 :: prest` (the fuel, initialized to the string
length, strictly bounds the number of scanning steps). -/
def replaceSubAll (p0 : Char) (prest repl : Str) (s : Str) : Str :=
  replaceSubAllAux p0 prest repl s.length s

def unfoldAux : List Str → List Str → List Str
  | out, [] => out.reverse
  | out, line :: rest =>
    if (line.head?.elim false (fun c => c = ' ' ∨ c = '\t')) ∧ out ≠ [] then
      match out with
      | [] => unfoldAux [line] rest
      | last :: prev => unfoldAux ((last ++ trimStartL line) :: prev) rest
    else unfoldAux (line :: out) rest

/-- Embeds `unfoldIcsLines` from page.tsx: normalize CRLF to LF, split on
newlines, and append every line starting with a space or tab (with its
leading whitespace trimmed) to the previous line. -/
def unfoldIcsLines (raw : Str) : List Str :=
  unfoldAux [] (splitOnCharL '\n' (replaceSubAll '\r' ['\n'] ['\n'] raw))

/-- The value a `Date` constructed by the client's `parseDt` carries: the
parsed components and whether the `Z` suffix selected UTC construction. -/
structure DateT where
  y : Nat
  mo : Nat
  d : Nat
  h : Nat
  mi : Nat
  s : Nat
  utc : Bool
deriving Repr, DecidableEq

def num2 (a b : Char) : Nat :=
  (a.toNat - 48) * 10 + (b.toNat - 48)

def num4 (a b c d : Char) : Nat :=
  ((a.toNat - 48) * 10 + (b.toNat - 48)) * 100 + (c.toNat - 48) * 10 + (d.toNat - 48)

/-- Embeds `parseDt` from page.tsx: the anchored regex
`^(\d{4})(\d{2})(\d{2})T(\d{2})(\d{2})(\d{2})(Z)?$`; a non-matching value
is `null`. -/
def parseDt (v : Str) : Option DateT :=
  match v with
  | y1 :: y2 :: y3 :: y4 :: mo1 :: mo2 :: d1 :: d2 :: 'T' :: h1 :: h2 :: mi1 :: mi2 :: s1 :: s2 :: rest =>
    if y1.isDigit ∧ y2.isDigit ∧ y3.isDigit ∧ y4.isDigit ∧ mo1.isDigit ∧ mo2.isDigit ∧
        d1.isDigit ∧ d2.isDigit ∧ h1.isDigit ∧ h2.isDigit ∧ mi1.isDigit ∧ mi2.isDigit ∧
        s1.isDigit ∧ s2.isDigit then
      match rest with
      | [] => some { y := num4 y1 y2 y3 y4, mo := num2 mo1 mo2, d := num2 d1 d2,
                     h := num2 h1 h2, mi := num2 mi1 mi2, s := num2 s1 s2, utc := false }
      | ['Z'] => some { y := num4 y1 y2 y3 y4, mo := num2 mo1 mo2, d := num2 d1 d2,
                        h := num2 h1 h2, mi := num2 mi1 mi2, s := num2 s1 s2, utc := true }
      | _ => none
    else none
  | _ => none

/-- The client's `IcsGame` record (the `end` field is `endTime` here since
`end` is a Lean keyword). -/
structure IcsGame where
  uid : Str
  summary : Str
  start : DateT
  endTime : DateT
  location : Option Str
  isHome : Option Bool
deriving Repr, DecidableEq

/-- The mutable loop state of `parseIcs` (page.tsx lines 86-92). -/
structure PState where
  inEvent : Bool
  uid : Str
  summary : Str
  location : Str
  dtStart : Option DateT
  dtEnd : Option DateT
  games : List IcsGame
deriving Repr, DecidableEq

/- The line markers and field prefixes `parseIcs` tests with
`line.startsWith(...)`, as named constants so proofs can refer to them. -/

def lineBEGIN : Str := "BEGIN:VEVENT".toList

def lineEND : Str := "END:VEVENT".toList

def prefUID : Str := "UID:".toList

def prefSUMMARY : Str := "SUMMARY:".toList

def prefLOCATION : Str := "LOCATION:".toList

def prefDTSTART : Str := "DTSTART".toList

def prefDTEND : Str := "DTEND".toList

/-- `line.split(":").slice(1).join(":")`: everything after the first colon
(empty when the line has no colon). -/
def afterFirstColon (line : Str) : Str :=
  match (breakAtSet [':'] line).2 with
  | ':' :: r => r
  | _ => []

/-- The event pushed at `END:VEVENT` (page.tsx lines 113-122):
`location || null`, `isHome: null`. -/
def mkGame (st : PState) (ds de : DateT) : IcsGame :=
  { uid := st.uid
    summary := st.summary
    start := ds
    endTime := de
    location := if st.location = [] then none else some st.location
    isHome := none }

/-- Embeds one iteration of the `for (const line of lines)` loop of
`parseIcs` (page.tsx lines 102-138): `BEGIN:VEVENT` resets the event
state, `END:VEVENT` pushes the event only when `uid`, `summary`,
`dtStart` and `dtEnd` are all truthy, lines outside events are skipped,
and the `UID:`/`SUMMARY:`/`LOCATION:`/`DTSTART`/`DTEND` prefixes update
their fields. -/
def icsStep (st : PState) (line : Str) : PState :=
  if startsWithL line lineBEGIN then
    { st with inEvent := true
              uid := []
              summary := []
              location := []
              dtStart := none
              dtEnd := none }
  else if startsWithL line lineEND then
    match st.dtStart, st.dtEnd with
    | some ds, some de =>
      if st.inEvent = true ∧ st.uid ≠ [] ∧ st.summary ≠ [] then
        { st with inEvent := false
                  games := st.games ++ [mkGame st ds de] }
      else { st with inEvent := false }
    | _, _ => { st with inEvent := false }
  else if st.inEvent = false then st
  else if startsWithL line prefUID then { st with uid := trimL (line.drop 4) }
  else if startsWithL line prefSUMMARY then { st with summary := trimL (line.drop 8) }
  else if startsWithL line prefLOCATION then { st with location := trimL (line.drop 9) }
  else if startsWithL line prefDTSTART then
    { st with dtStart := parseDt (trimL (afterFirstColon line)) }
  else if startsWithL line prefDTEND then
    { st with dtEnd := parseDt (trimL (afterFirstColon line)) }
  else st

def initPState : PState :=
  { inEvent := false, uid := [], summary := [], location := [], dtStart := none,
    dtEnd := none, games := [] }

/-- Embeds `parseIcs` from page.tsx: unfold the lines and run the event
state machine; the function is total — no input raises an error. -/
def parseIcs (icsText : Str) : List IcsGame :=
  (List.foldl icsStep initPState (unfoldIcsLines icsText)).games

theorem icsStep_content (st : PState) (line : Str)
    (hB : startsWithL line lineBEGIN = false)
    (hE : startsWithL line lineEND = false)
    (hin : st.inEvent = true) :
    (icsStep st line).games = st.games ∧ (icsStep st line).inEvent = true ∧
      (startsWithL line prefDTSTART = false → (icsStep st line).dtStart = st.dtStart) ∧
      (startsWithL line prefDTEND = false → (icsStep st line).dtEnd = st.dtEnd) ∧
      (startsWithL line prefUID = false → (icsStep st line).uid = st.uid) := by
  unfold icsStep
  rw [if_neg (by simp [hB]), if_neg (by simp [hE]), if_neg (by simp [hin])]
  by_cases h1 : startsWithL line prefUID = true
  · simp [h1, hin]
  · rw [if_neg (by simp [h1])]
    by_cases h2 : startsWithL line prefSUMMARY = true
    · simp [h2, hin]
    · rw [if_neg (by simp [h2])]
      by_cases h3 : startsWithL line prefLOCATION = true
      · simp [h3, hin]
      · rw [if_neg (by simp [h3])]
        by_cases h4 : startsWithL line prefDTSTART = true
        · simp [h4, hin]
        · rw [if_neg (by simp [h4])]
          by_cases h5 : startsWithL line prefDTEND = true
          · simp [h5, hin]
          · rw [if_neg (by simp [h5])]
            simp [hin]

theorem foldl_icsStep_content (bl : List Str) : ∀ st : PState, st.inEvent = true →
    (∀ l ∈ bl, startsWithL l lineBEGIN = false ∧ startsWithL l lineEND = false) →
    (List.foldl icsStep st bl).games = st.games ∧
      (List.foldl icsStep st bl).inEvent = true ∧
      ((∀ l ∈ bl, startsWithL l prefDTSTART = false) →
        (List.foldl icsStep st bl).dtStart = st.dtStart) ∧
      ((∀ l ∈ bl, startsWithL l prefDTEND = false) →
        (List.foldl icsStep st bl).dtEnd = st.dtEnd) ∧
      ((∀ l ∈ bl, startsWithL l prefUID = false) →
        (List.foldl icsStep st bl).uid = st.uid) := by
  induction bl with
  | nil => intro st hin _; simp [hin]
  | cons line rest ih =>
    intro st hin hcontent
    have hline := hcontent line (by simp)
    have hrest : ∀ l ∈ rest, startsWithL l lineBEGIN = false ∧
        startsWithL l lineEND = false := by
      intro l hl; exact hcontent l (by simp [hl])
    have hstep := icsStep_content st line hline.1 hline.2 hin
    have hrec := ih (icsStep st line) hstep.2.1 hrest
    simp only [List.foldl_cons]
    refine ⟨by rw [hrec.1, hstep.1], hrec.2.1, ?_, ?_, ?_⟩
    · intro hall
      rw [hrec.2.2.1 (fun l hl => hall l (by simp [hl])),
        hstep.2.2.1 (hall line (by simp))]
    · intro hall
      rw [hrec.2.2.2.1 (fun l hl => hall l (by simp [hl])),
        hstep.2.2.2.1 (hall line (by simp))]
    · intro hall
      rw [hrec.2.2.2.2 (fun l hl => hall l (by simp [hl])),
        hstep.2.2.2.2 (hall line (by simp))]

theorem icsStep_endline_nopush (st : PState)
    (hdrop : st.dtStart = none ∨ st.dtEnd = none ∨ st.uid = []) :
    (icsStep st lineEND).games = st.games ∧
      (icsStep st lineEND).inEvent = false := by
  unfold icsStep
  rw [if_neg (by decide), if_pos (by decide)]
  rcases hdrop with h | h | h
  · rw [h]; cases st.dtEnd <;> simp
  · rw [h]; cases st.dtStart <;> simp
  · cases hS : st.dtStart with
    | none => simp
    | some ds =>
      cases hE : st.dtEnd with
      | none => simp
      | some de => simp [h]

theorem icsStep_outside (st : PState) (line : Str)
    (hin : st.inEvent = false)
    (hB : startsWithL line lineBEGIN = false) :
    icsStep st line = st ∨ icsStep st line = { st with inEvent := false } := by
  unfold icsStep
  rw [if_neg (by simp [hB])]
  by_cases hE : startsWithL line lineEND = true
  · rw [if_pos hE]
    right
    cases hS : st.dtStart with
    | none => cases st.dtEnd <;> simp
    | some ds =>
      cases hEnd : st.dtEnd with
      | none => simp
      | some de => simp [hin]
  · rw [if_neg hE, if_pos hin]
    left
    rfl

theorem foldl_icsStep_congr_outside (post : List Str) : ∀ s1 s2 : PState,
    s1.inEvent = false → s2.inEvent = false → s1.games = s2.games →
    (List.foldl icsStep s1 post).games = (List.foldl icsStep s2 post).games := by
  induction post with
  | nil => intro s1 s2 _ _ hg; simpa using hg
  | cons line rest ih =>
    intro s1 s2 h1 h2 hg
    simp only [List.foldl_cons]
    by_cases hB : startsWithL line lineBEGIN = true
    · have hstep1 : icsStep s1 line =
          { s1 with inEvent := true
                    uid := []
                    summary := []
                    location := []
                    dtStart := none
                    dtEnd := none } := by
        unfold icsStep; rw [if_pos hB]
      have hstep2 : icsStep s2 line =
          { s2 with inEvent := true
                    uid := []
                    summary := []
                    location := []
                    dtStart := none
                    dtEnd := none } := by
        unfold icsStep; rw [if_pos hB]
      have heq : icsStep s1 line = icsStep s2 line := by
        rw [hstep1, hstep2]
        cases s1; cases s2
        simp_all
      rw [heq]
    · have hB' : startsWithL line lineBEGIN = false := by
        simpa using hB
      rcases icsStep_outside s1 line h1 hB' with e1 | e1 <;>
        rcases icsStep_outside s2 line h2 hB' with e2 | e2 <;>
        · rw [e1, e2]
          exact ih _ _ (by simp [h1, h2]) (by simp [h1, h2]) (by simp [hg])

/-- Shared block lemma: a `BEGIN:VEVENT` … `END:VEVENT` block whose content
lines never set `DTSTART`, or never set `DTEND`, or never set `UID`,
contributes no event: the parse of the surrounding line stream yields
exactly the games of the stream without the block, and processing
continues normally afterwards (`icsStep` is total — there is no error
state). -/
theorem icsBlock_dropped (s : PState) (bl post : List Str)
    (hin : s.inEvent = false)
    (hcontent : ∀ l ∈ bl, startsWithL l lineBEGIN = false ∧
      startsWithL l lineEND = false)
    (hmissing : (∀ l ∈ bl, startsWithL l prefDTSTART = false) ∨
      (∀ l ∈ bl, startsWithL l prefDTEND = false) ∨
      (∀ l ∈ bl, startsWithL l prefUID = false)) :
    (List.foldl icsStep s ((lineBEGIN :: bl) ++ lineEND :: post)).games =
      (List.foldl icsStep s post).games := by
  have hbegin : icsStep s lineBEGIN =
      { s with inEvent := true
               uid := []
               summary := []
               location := []
               dtStart := none
               dtEnd := none } := by
    unfold icsStep; rw [if_pos (by decide)]
  simp only [List.cons_append, List.foldl_cons, hbegin]
  rw [List.foldl_append]
  have hblock := foldl_icsStep_content bl
    { s with inEvent := true
             uid := []
             summary := []
             location := []
             dtStart := none
             dtEnd := none } rfl hcontent
  set sA := List.foldl icsStep
    { s with inEvent := true
             uid := []
             summary := []
             location := []
             dtStart := none
             dtEnd := none } bl with hsA
  have hdrop : sA.dtStart = none ∨ sA.dtEnd = none ∨ sA.uid = [] := by
    rcases hmissing with h | h | h
    · exact Or.inl (hblock.2.2.1 h)
    · exact Or.inr (Or.inl (hblock.2.2.2.1 h))
    · exact Or.inr (Or.inr (hblock.2.2.2.2 h))
  simp only [List.foldl_cons]
  have hend := icsStep_endline_nopush sA hdrop
  have hgames : (icsStep sA lineEND).games = s.games := by
    rw [hend.1, hblock.1]
  exact foldl_icsStep_congr_outside post _ s hend.2 hin hgames

/-- C6: an event block lacking `DTSTART` or lacking `DTEND` is dropped
silently by `parseIcs`: running the (total, error-free) parser over a line
stream containing the block yields exactly the games of the stream
without the block, from any between-events state. -/
theorem ics_missing_dt_dropped (s : PState) (bl post : List Str)
    (hin : s.inEvent = false)
    (hcontent : ∀ l ∈ bl, startsWithL l lineBEGIN = false ∧
      startsWithL l lineEND = false)
    (hmissing : (∀ l ∈ bl, startsWithL l prefDTSTART = false) ∨
      (∀ l ∈ bl, startsWithL l prefDTEND = false)) :
    (List.foldl icsStep s ((lineBEGIN :: bl) ++ lineEND :: post)).games =
      (List.foldl icsStep s post).games :=
  icsBlock_dropped s bl post hin hcontent
    (hmissing.elim Or.inl (fun h => Or.inr (Or.inl h)))

theorem ics_missing_dt_dropped_witness :
    (List.foldl icsStep initPState ((lineBEGIN ::
        [("UID:1".toList), ("SUMMARY:A - B".toList),
         ("DTSTART:20250101T100000".toList)]) ++ lineEND :: [])).games =
        (List.foldl icsStep initPState []).games ∧
      parseIcs ("BEGIN:VCALENDAR\r\nBEGIN:VEVENT\r\nUID:1\r\nSUMMARY:A - B\r\nDTSTART:20250101T100000\r\nEND:VEVENT\r\nEND:VCALENDAR".toList) = [] := by
  constructor
  · exact ics_missing_dt_dropped initPState
      [("UID:1".toList), ("SUMMARY:A - B".toList), ("DTSTART:20250101T100000".toList)]
      [] rfl (by decide) (Or.inr (by decide))
  · decide

/-- C7 counterexample: an event block that has `DTSTART`, `DTEND` and a
summary but no `UID` line produces no parsed event at all — `parseIcs`
drops it instead of synthesizing a UID from `start + "-" + summary`. -/
theorem no_uid_synthesis_counterexample :
    parseIcs ("BEGIN:VCALENDAR\r\nBEGIN:VEVENT\r\nDTSTART:20250101T100000\r\nDTEND:20250101T113000\r\nSUMMARY:A - B\r\nEND:VEVENT\r\nEND:VCALENDAR".toList) = [] := by
  decide

/-- C7 (amended): `parseIcs` never synthesizes a UID; an event block whose
content lines never set `UID` is dropped entirely (the `END:VEVENT` push
requires a non-empty uid), leaving the parse of the surrounding stream
unchanged. -/
theorem ics_missing_uid_dropped (s : PState) (bl post : List Str)
    (hin : s.inEvent = false)
    (hcontent : ∀ l ∈ bl, startsWithL l lineBEGIN = false ∧
      startsWithL l lineEND = false)
    (hnouid : ∀ l ∈ bl, startsWithL l prefUID = false) :
    (List.foldl icsStep s ((lineBEGIN :: bl) ++ lineEND :: post)).games =
      (List.foldl icsStep s post).games :=
  icsBlock_dropped s bl post hin hcontent (Or.inr (Or.inr hnouid))

theorem ics_missing_uid_dropped_witness :
    (List.foldl icsStep initPState ((lineBEGIN ::
        [("DTSTART:20250101T100000".toList), ("DTEND:20250101T113000".toList),
         ("SUMMARY:A - B".toList)]) ++ lineEND :: [])).games =
      (List.foldl icsStep initPState []).games :=
  ics_missing_uid_dropped initPState
    [("DTSTART:20250101T100000".toList), ("DTEND:20250101T113000".toList),
     ("SUMMARY:A - B".toList)]
    [] rfl (by decide) (by decide)

/- =========================
   C1: home/away classification
   (page.tsx `normalizeForMatch`/`buildMatchTokens`/`splitHomeAway`/`addHomeInfo`
    lines 144-212 and 490-519, the `homeOnly` filter line 537;
    route.ts `stripDiacritics`/`normalizeTeamName`/`isHomeGame` lines 190-242)
========================= -/

def isLowerAlnum (c : Char) : Bool :=
  ('a' ≤ c ∧ c ≤ 'z') || ('0' ≤ c ∧ c ≤ '9')

def isWordChar (c : Char) : Bool :=
  ('a' ≤ c ∧ c ≤ 'z') || ('A' ≤ c ∧ c ≤ 'Z') || ('0' ≤ c ∧ c ≤ '9') || c = '_'

def collapseRunsAux (p : Char → Bool) (r : Char) (inRun : Bool) : Str → Str
  | [] => []
  | c :: rest =>
    if p c then
      if inRun then collapseRunsAux p r true rest
      else r :: collapseRunsAux p r true rest
    else c :: collapseRunsAux p r false rest

/-- A global regex replace of every maximal run of characters satisfying
`p` by the single character `r` (the shape of `replace(/[^a-z0-9]+/g, " ")`
and `replace(/\s+/g, " ")`). -/
def collapseRuns (p : Char → Bool) (r : Char) (s : Str) : Str :=
  collapseRunsAux p r false s

/-- Model of `normalize("NFKD")` followed by stripping the combining marks
`[̀-ͯ]`, charwise, for the characters of this development: the
German umlauts decompose to their base letter plus a stripped mark, while
`ß` has no decomposition and survives. -/
def nfkdStripMarks (c : Char) : Char :=
  if c = 'ä' then 'a'
  else if c = 'ö' then 'o'
  else if c = 'ü' then 'u'
  else if c = 'Ä' then 'A'
  else if c = 'Ö' then 'O'
  else if c = 'Ü' then 'U'
  else c

/-- Embeds `normalizeForMatch` from page.tsx: lowercase, NFKD + strip
combining marks, the literal umlaut replacements (no-ops after NFKD
stripping, kept from the source), `ß` → `ss`, non-alphanumeric runs to
single spaces, whitespace collapse, trim. -/
def normalizeForMatch (s : Str) : Str :=
  trimL (collapseRuns (fun c => isJsWs c) ' '
    (collapseRuns (fun c => !isLowerAlnum c) ' '
      (replAll 'ß' ("ss".toList)
        (replAll 'ü' ("ue".toList)
          (replAll 'ö' ("oe".toList)
            (replAll 'ä' ("ae".toList)
              ((toLowerL s).map nfkdStripMarks)))))))

/-- The `STOPWORDS` set of page.tsx lines 158-179. -/
def STOPWORDS : List Str :=
  [("fc".toList), ("tsv".toList), ("sv".toList), ("sc".toList), ("sg".toList),
   ("jfg".toList), ("ev".toList), ("e".toList), ("v".toList),
   ("muenchen".toList), ("munchen".toList), ("muench".toList), ("m".toList),
   ("ii".toList), ("iii".toList), ("iv".toList), ("i".toList), ("u".toList),
   ("junioren".toList), ("juniorinnen".toList)]

/-- The test `/^u\d{1,2}$/.test(w)`. -/
def isUNumToken (w : Str) : Bool :=
  match w with
  | 'u' :: ds => ds ≠ [] ∧ ds.length ≤ 2 ∧ ds.all Char.isDigit
  | _ => false

def dedupFirstAux (seen : List Str) : List Str → List Str
  | [] => []
  | x :: rest =>
    if x ∈ seen then dedupFirstAux seen rest
    else x :: dedupFirstAux (x :: seen) rest

/-- `Array.from(new Set(tokens))`: first occurrences in order. -/
def dedupFirst (l : List Str) : List Str :=
  dedupFirstAux [] l

/-- Embeds `buildMatchTokens` from page.tsx: normalize every name, split on
spaces, drop empties, stop-words, bare `u\d{1,2}` markers and tokens
shorter than 3 characters, then de-duplicate keeping first occurrences. -/
def buildMatchTokens (names : List Str) : List Str :=
  dedupFirst (names.flatMap (fun n =>
    (splitOnCharL ' ' (normalizeForMatch n)).filter (fun w =>
      w ≠ [] ∧ w ∉ STOPWORDS ∧ ¬ isUNumToken w ∧ 3 ≤ w.length)))

def splitOnSubAux (p0 : Char) (prest : Str) : Nat → Str → List Str
  | 0, s => [s]
  | _ + 1, [] => [[]]
  | n + 1, c :: rest =>
    if startsWithL (c :: rest) (p0 :: prest) then
      [] :: splitOnSubAux p0 prest n (rest.drop prest.length)
    else
      match splitOnSubAux p0 prest n rest with
      | [] => [[c]]
      | h :: t => (c :: h) :: t

/-- JS `String.prototype.split` on a non-empty literal separator
`p0 :: prest`. -/
def splitOnSubL (p0 : Char) (prest s : Str) : List Str :=
  splitOnSubAux p0 prest s.length s

/-- The fallback regex `^(.*?)[\s]*[-–][\s]*(.*)$` of `splitHomeAway`: the
lazy first group makes the match split at the first `-` or `–`, with the
whitespace run before it absorbed by `[\s]*` and the whitespace after it
absorbed greedily; both groups must be non-empty (truthy). -/
def firstDashSplit (s : Str) : Option (Str × Str) :=
  match breakAtSet ['-', '–'] s with
  | (pre, _ :: rest) =>
    let g1 := (trimStartL pre.reverse).reverse
    let g2 := trimStartL rest
    if g1 ≠ [] ∧ g2 ≠ [] then some (trimL g1, trimL g2) else none
  | _ => none

/-- Embeds `splitHomeAway` from page.tsx: take the part before the first
comma (falling back to the whole summary when it is empty), then try
splitting on `" - "`, then `" – "`, then the first-dash regex; each split
succeeds only when both sides are non-empty. -/
def splitHomeAway (summary : Str) : Option (Str × Str) :=
  let seg0 := ((splitOnCharL ',' summary).headD [])
  let teamPart := if seg0 = [] then summary else seg0
  let try1 : Option (Str × Str) :=
    if containsSub teamPart (" - ".toList) then
      let ps := splitOnSubL ' ' ("- ".toList) teamPart
      let l := ps.headD []
      let r := (ps.drop 1).headD []
      if l ≠ [] ∧ r ≠ [] then some (trimL l, trimL r) else none
    else none
  match try1 with
  | some x => some x
  | none =>
    let try2 : Option (Str × Str) :=
      if containsSub teamPart (" – ".toList) then
        let ps := splitOnSubL ' ' ("– ".toList) teamPart
        let l := ps.headD []
        let r := (ps.drop 1).headD []
        if l ≠ [] ∧ r ≠ [] then some (trimL l, trimL r) else none
      else none
    match try2 with
    | some x => some x
    | none => firstDashSplit teamPart

/-- The `matchSide` closure of `addHomeInfo` (page.tsx lines 497-500):
token-in-normalized-text containment, `false` when no tokens exist. -/
def matchSide (tokens : List Str) (s : Str) : Bool :=
  if tokens ≠ [] then tokens.any (fun t => containsSub (normalizeForMatch s) t)
  else false

/-- Embeds the per-game `isHome` assignment of `addHomeInfo` (page.tsx
lines 502-515).  The location branch inlines the same
token-containment expression as `matchSide`. -/
def addHomeInfoIsHome (tokens : List Str) (summary location : Str) : Option Bool :=
  match splitHomeAway summary with
  | some p =>
    if matchSide tokens p.1 = true ∧ matchSide tokens p.2 = false then some true
    else if matchSide tokens p.2 = true ∧ matchSide tokens p.1 = false then some false
    else if matchSide tokens p.1 = true ∧ matchSide tokens p.2 = true then some true
    else none
  | none =>
    if matchSide tokens location = true then some true else none

/-- Embeds `addHomeInfo` from page.tsx: recompute every game with the
tri-state `isHome` derived from the club/team match tokens. -/
def addHomeInfo (clubName teamName : Str) (gs : List IcsGame) : List IcsGame :=
  let tokens := buildMatchTokens [clubName, teamName]
  gs.map (fun g =>
    { g with isHome := addHomeInfoIsHome tokens g.summary (g.location.getD []) })

/-- Embeds the "nur Heimspiele" filter of `loadGamesSingle` (page.tsx line
537): `parsed.filter((g) => g.isHome !== false)` — unknown games stay. -/
def homeOnlyFilter (gs : List IcsGame) : List IcsGame :=
  gs.filter (fun g => g.isHome ≠ some false)

/-- Embeds `stripDiacritics` from route.ts (`normalize("NFD")` plus
stripping `[̀-ͯ]`), charwise for the characters of this
development. -/
def stripDiacritics (s : Str) : Str :=
  s.map (fun c =>
    if c = 'ä' then 'a'
    else if c = 'Ä' then 'A'
    else if c = 'ö' then 'o'
    else if c = 'Ö' then 'O'
    else if c = 'ü' then 'u'
    else if c = 'Ü' then 'U'
    else c)

/-- The separator `\s*[- ]\s*` of the `u\d{1,2}` rules in
`normalizeTeamName`: a whitespace run, one mandatory `-` or space, a
whitespace run; returns the remainder after the separator. -/
def parseSep (l : Str) : Option Str :=
  let ws := l.takeWhile (fun c => isJsWs c)
  let rest := l.dropWhile (fun c => isJsWs c)
  match rest with
  | '-' :: r2 => some (trimStartL r2)
  | _ => if ws.any (fun c => c = ' ') then some rest else none

def boundaryOk (r : Str) : Bool :=
  match r with
  | [] => true
  | c :: _ => ¬ isWordChar c

/-- After a leading `u`, match `(\d{1,2})\s*[- ]\s*<suffix>\b`, returning
the digit group and the remainder after the suffix. -/
def tryURoman (suffix : Str) (afterU : Str) : Option (Str × Str) :=
  match afterU with
  | d1 :: tail =>
    if d1.isDigit then
      match tail with
      | d2 :: tail2 =>
        if d2.isDigit then
          match parseSep tail2 with
          | some r =>
            if startsWithL r suffix ∧ boundaryOk (r.drop suffix.length) then
              some ([d1, d2], r.drop suffix.length)
            else none
          | none => none
        else
          match parseSep tail with
          | some r =>
            if startsWithL r suffix ∧ boundaryOk (r.drop suffix.length) then
              some ([d1], r.drop suffix.length)
            else none
          | none => none
      | [] => none
    else none
  | [] => none

def uRomanScanAux (suffix : Str) : Nat → Option Char → Str → Str
  | 0, _, s => s
  | _ + 1, _, [] => []
  | n + 1, prev, c :: rest =>
    if (prev.elim true (fun p => ¬ isWordChar p = true)) ∧ c = 'u' then
      match tryURoman suffix rest with
      | some (digits, rest2) =>
        ('u' :: digits ++ ' ' :: suffix) ++
          uRomanScanAux suffix n (some 'i') rest2
      | none => c :: uRomanScanAux suffix n (some c) rest
    else c :: uRomanScanAux suffix n (some c) rest

/-- One global rule `t.replace(/\bu(\d{1,2})\s*[- ]\s*<suffix>\b/g,
"u$1 <suffix>")` of `normalizeTeamName` (suffix `i`, `ii` or `iii`); the
word-boundary before `u` is checked against the character preceding the
match in the source string (`i` after a replaced span). -/
def uRomanRule (suffix : Str) (s : Str) : Str :=
  uRomanScanAux suffix s.length none s

/-- Embeds `normalizeTeamName` from route.ts: strip diacritics, lowercase,
unify the Unicode dashes `‐`-`―` to `-`, apply the three
`u\d{1,2}` roman-suffix rules, collapse non-alphanumerics to spaces,
collapse whitespace, trim. -/
def normalizeTeamName (input : Str) : Str :=
  let t1 := toLowerL (stripDiacritics input)
  let t2 := t1.map (fun c =>
    if 0x2010 ≤ c.toNat ∧ c.toNat ≤ 0x2015 then '-' else c)
  let t3 := uRomanRule ("i".toList) t2
  let t4 := uRomanRule ("ii".toList) t3
  let t5 := uRomanRule ("iii".toList) t4
  trimL (collapseRuns (fun c => isJsWs c) ' '
    (collapseRuns (fun c => !isLowerAlnum c) ' ' t5))

/-- Embeds `isHomeGame` from route.ts (lines 225-242): split the summary on
`" - "`; fewer than two parts → `false`; empty normalized team hint →
`false`; otherwise equality/prefix/substring overlap between the
normalized host and normalized team hint. -/
def isHomeGame (summary teamHint : Str) : Bool :=
  let parts := splitOnSubL ' ' ("- ".toList) summary
  if parts.length < 2 then false
  else
    let hostN := normalizeTeamName (parts.headD [])
    let teamN := normalizeTeamName teamHint
    if teamN = [] then false
    else
      decide (hostN = teamN) || startsWithL hostN teamN || startsWithL teamN hostN ||
        containsSub hostN teamN || containsSub teamN hostN

/-- C1 counterexample: for the summary `"Alpha - Beta"` and team hint
`"gamma"` the normalized token set matches neither side (no equality,
prefix or substring overlap in either direction), yet the server-side
classifier `isHomeGame` — whose codomain is `Bool`, with no unknown
value — returns `false`: on the HTML route the unknown case is defaulted
to false (and `parseAllFromHtml` then treats the game as away), not kept
as `null`. -/
theorem home_unknown_defaults_false_counterexample :
    isHomeGame ("Alpha - Beta".toList) ("gamma".toList) = false ∧
      normalizeTeamName ("Alpha".toList) = ("alpha".toList) ∧
      normalizeTeamName ("Beta".toList) = ("beta".toList) ∧
      normalizeTeamName ("gamma".toList) = ("gamma".toList) ∧
      containsSub ("alpha".toList) ("gamma".toList) = false ∧
      containsSub ("gamma".toList) ("alpha".toList) = false ∧
      containsSub ("beta".toList) ("gamma".toList) = false ∧
      containsSub ("gamma".toList) ("beta".toList) = false := by
  refine ⟨by decide, by decide, by decide, by decide, by decide, by decide, by decide, by decide⟩

/-- C1 (amended): the client-side classifier `addHomeInfo` is tri-state —
when the token set matches neither side of the split summary `isHome` is
`null`, `true`/`false` arise only from an actual side match, and the
client's "nur Heimspiele" filter keeps unknown games (never coercing
`null` to `false`); the server-side `isHomeGame`, by contrast, is
boolean-valued and returns `false` whenever the normalized host shares no
equality/prefix/substring overlap with the normalized team hint, so on
the server HTML path the unknown case is conflated with "away". -/
theorem home_away_tri_state_contract :
    (∀ (tokens : List Str) (summary loc : Str) (p : Str × Str),
        splitHomeAway summary = some p →
        matchSide tokens p.1 = false → matchSide tokens p.2 = false →
        addHomeInfoIsHome tokens summary loc = none) ∧
      (∀ (tokens : List Str) (summary loc : Str) (b : Bool),
        addHomeInfoIsHome tokens summary loc = some b →
        (b = true →
          (∃ p, splitHomeAway summary = some p ∧ matchSide tokens p.1 = true) ∨
            (splitHomeAway summary = none ∧ matchSide tokens loc = true)) ∧
        (b = false →
          ∃ p, splitHomeAway summary = some p ∧
            matchSide tokens p.2 = true ∧ matchSide tokens p.1 = false)) ∧
      (∀ (gs : List IcsGame) (g : IcsGame),
        g ∈ gs → g.isHome = none → g ∈ homeOnlyFilter gs) ∧
      (∀ (summary teamHint hostN teamN : Str),
        hostN = normalizeTeamName ((splitOnSubL ' ' ("- ".toList) summary).headD []) →
        teamN = normalizeTeamName teamHint →
        hostN ≠ teamN →
        startsWithL hostN teamN = false → startsWithL teamN hostN = false →
        containsSub hostN teamN = false → containsSub teamN hostN = false →
        isHomeGame summary teamHint = false) := by
  refine ⟨?_, ?_, ?_, ?_⟩
  · intro tokens summary loc p hsp hl hr
    simp [addHomeInfoIsHome, hsp, hl, hr]
  · intro tokens summary loc b h
    cases hsp : splitHomeAway summary with
    | none =>
      have hred : addHomeInfoIsHome tokens summary loc =
          (if matchSide tokens loc = true then some true else none) := by
        rw [addHomeInfoIsHome, hsp]
      rw [hred] at h
      by_cases hm : matchSide tokens loc = true
      · rw [if_pos hm] at h
        injection h with hb
        subst hb
        exact ⟨fun _ => Or.inr ⟨rfl, hm⟩, fun h' => absurd h' (by decide)⟩
      · rw [if_neg hm] at h
        cases h
    | some p =>
      have hred : addHomeInfoIsHome tokens summary loc =
          (if matchSide tokens p.1 = true ∧ matchSide tokens p.2 = false then some true
           else if matchSide tokens p.2 = true ∧ matchSide tokens p.1 = false then some false
           else if matchSide tokens p.1 = true ∧ matchSide tokens p.2 = true then some true
           else none) := by
        rw [addHomeInfoIsHome, hsp]
      rw [hred] at h
      by_cases hl : matchSide tokens p.1 = true
      · by_cases hr : matchSide tokens p.2 = true
        · rw [if_neg (by simp [hr]), if_neg (by simp [hl]), if_pos ⟨hl, hr⟩] at h
          injection h with hb
          subst hb
          exact ⟨fun _ => Or.inl ⟨p, rfl, hl⟩, fun h' => absurd h' (by decide)⟩
        · rw [if_pos ⟨hl, by simpa using hr⟩] at h
          injection h with hb
          subst hb
          exact ⟨fun _ => Or.inl ⟨p, rfl, hl⟩, fun h' => absurd h' (by decide)⟩
      · by_cases hr : matchSide tokens p.2 = true
        · rw [if_neg (by simp [hl]), if_pos ⟨hr, by simpa using hl⟩] at h
          injection h with hb
          subst hb
          refine ⟨fun h' => absurd h' (by decide), fun _ => ⟨p, rfl, hr, by simpa using hl⟩⟩
        · rw [if_neg (by simp [hl]), if_neg (by simp [hr]), if_neg (by simp [hl])] at h
          cases h
  · intro gs g hmem hnone
    rw [homeOnlyFilter, List.mem_filter]
    exact ⟨hmem, by simp [hnone]⟩
  · intro summary teamHint hostN teamN hh ht hne h1 h2 h3 h4
    rw [isHomeGame]
    by_cases hlen : (splitOnSubL ' ' ("- ".toList) summary).length < 2
    · rw [if_pos hlen]
    · rw [if_neg hlen]
      by_cases hteam : normalizeTeamName teamHint = []
      · rw [if_pos hteam]
      · rw [if_neg hteam]
        rw [← hh, ← ht]
        simp [hne, h1, h2, h3, h4]

theorem home_away_tri_state_witness :
    addHomeInfoIsHome (buildMatchTokens [("FC Stern München".toList), ("Stern U9-I".toList)])
        ("Alpha - Beta".toList) [] = none ∧
      isHomeGame ("Alpha - Beta".toList) ("gamma".toList) = false := by
  constructor
  · exact home_away_tri_state_contract.1
      (buildMatchTokens [("FC Stern München".toList), ("Stern U9-I".toList)])
      ("Alpha - Beta".toList) [] (("Alpha".toList), ("Beta".toList))
      (by decide) (by decide) (by decide)
  · exact home_away_tri_state_contract.2.2.2
      ("Alpha - Beta".toList) ("gamma".toList) ("alpha".toList) ("gamma".toList)
      (by decide) (by decide) (by decide) (by decide) (by decide) (by decide) (by decide)

/- =========================
   C9 (and C8): the text normalizer
   (route.ts, `cleanText` lines 82-123, `cleanBfvSummary` lines 125-158)
========================= -/

/-- Generic engine for one global regex replace: `tryM` receives the
already-consumed source prefix in reverse (for word-boundary and
lookbehind tests) and the remaining input; on a match it returns the
replacement and the remaining input after the match.  On failure the
scanner advances one character, as the JS regex engine does. -/
def scanRepl (tryM : Str → Str → Option (Str × Str)) : Nat → Str → Str → Str
  | 0, _, s => s
  | _ + 1, _, [] => []
  | n + 1, rdone, c :: rest =>
    match tryM rdone (c :: rest) with
    | some (repl, remaining) =>
      let consumed := (c :: rest).length - remaining.length
      repl ++ scanRepl tryM n (((c :: rest).take consumed).reverse ++ rdone) remaining
    | none => c :: scanRepl tryM n (c :: rdone) rest

def runScan (tryM : Str → Str → Option (Str × Str)) (s : Str) : Str :=
  scanRepl tryM s.length [] s

/-- The `\b` test before a match: start of input or a preceding non-word
character (JS word characters are `[A-Za-z0-9_]`). -/
def prevNonWord (rdone : Str) : Bool :=
  match rdone with
  | [] => true
  | c :: _ => ¬ isWordChar c

/-- Remainder after the first case-insensitive occurrence of `pat`. -/
def dropThroughCI (pat : Str) : Str → Option Str
  | [] => none
  | c :: rest =>
    if ciIsPrefixOf pat (c :: rest) then some ((c :: rest).drop pat.length)
    else dropThroughCI pat rest

/-- `<open[\s\S]*?</close>` (case-insensitive, lazy to the nearest closing
tag) replaced by one space — the `<script>`/`<style>`/`<svg>` block
rules. -/
def tryBlock (openT closeT : Str) (_ : Str) (s : Str) : Option (Str × Str) :=
  if ciIsPrefixOf openT s then
    match dropThroughCI closeT (s.drop openT.length) with
    | some r => some ([' '], r)
    | none => none
  else none

/-- `<img[^>]*>` (case-insensitive) replaced by one space. -/
def tryImg (_ : Str) (s : Str) : Option (Str × Str) :=
  if ciIsPrefixOf ("<img".toList) s then
    match (breakAtSet ['>'] (s.drop 4)).2 with
    | '>' :: r2 => some ([' '], r2)
    | _ => none
  else none

/-- `<[^>]*>` replaced by one space. -/
def tryTag (_ : Str) (s : Str) : Option (Str × Str) :=
  match s with
  | '<' :: rest =>
    match (breakAtSet ['>'] rest).2 with
    | '>' :: r2 => some ([' '], r2)
    | _ => none
  | _ => none

/-- `&nbsp;|&#160;` (case-insensitive) replaced by one space. -/
def tryEntity (_ : Str) (s : Str) : Option (Str × Str) :=
  if ciIsPrefixOf ("&nbsp;".toList) s then some ([' '], s.drop 6)
  else if ciIsPrefixOf ("&#160;".toList) s then some ([' '], s.drop 6)
  else none

/-- The lazy tail `.*?\s*\/\s*` of the `data-img-title` rule: consume
non-newline characters up to the first position where `\s*\/` matches,
then the trailing whitespace run. -/
def findSlashLazy : Str → Option Str
  | [] => none
  | c :: rest =>
    match (c :: rest).dropWhile (fun x => isJsWs x) with
    | '/' :: r2 => some (trimStartL r2)
    | _ => if c = '\n' then none else findSlashLazy rest

/-- `\bdata-img-title\s*=\s*.*?\s*\/\s*` (case-insensitive) replaced by
the empty string.  The whitespace admitted by `\s*` right after `=` is
consumed before the lazy scan (it may contain newlines, which `.` cannot
match). -/
def tryDataImgTitle (rdone : Str) (s : Str) : Option (Str × Str) :=
  if prevNonWord rdone ∧ ciIsPrefixOf ("data-img-title".toList) s then
    match (s.drop 14).dropWhile (fun x => isJsWs x) with
    | '=' :: a3 =>
      match findSlashLazy (a3.dropWhile (fun x => isJsWs x)) with
      | some r => some ([], r)
      | none => none
    | _ => none
  else none

/-- The attribute-name class `[a-z0-9_-]` under the `i` flag. -/
def isAttrNameChar (c : Char) : Bool :=
  ('a' ≤ c ∧ c ≤ 'z') || ('A' ≤ c ∧ c ≤ 'Z') || ('0' ≤ c ∧ c ≤ '9') || c = '_' || c = '-'

/-- The shared value tail `\s*=\s*[^|/]{0,80}` of the attribute-debris
rules; returns the remainder after the (greedy, bounded) value. -/
def attrValCont (a1 : Str) : Option Str :=
  match a1.dropWhile (fun x => isJsWs x) with
  | '=' :: a3 =>
    let a4 := a3.dropWhile (fun x => isJsWs x)
    let seg := (a4.takeWhile (fun c => ¬ (c = '|' ∨ c = '/'))).take 80
    some (a4.drop seg.length)
  | _ => none

/-- `\bdata-[a-z0-9_-]+\s*=\s*[^|/]{0,80}` (case-insensitive) replaced by
one space. -/
def tryDataAttr (rdone : Str) (s : Str) : Option (Str × Str) :=
  if prevNonWord rdone ∧ ciIsPrefixOf ("data-".toList) s then
    let name := (s.drop 5).takeWhile isAttrNameChar
    if name = [] then none
    else
      match attrValCont ((s.drop 5).drop name.length) with
      | some r => some ([' '], r)
      | none => none
  else none

/-- `\b(?:data-module|loading|srcset|sizes|alt|title|aria-[a-z0-9_-]+)
\s*=\s*[^|/]{0,80}` (case-insensitive) replaced by one space; the
alternatives are tried in source order, each with the full value tail. -/
def tryAttrList (rdone : Str) (s : Str) : Option (Str × Str) :=
  if prevNonWord rdone then
    let tryAlt (len : Nat) : Option (Str × Str) :=
      match attrValCont (s.drop len) with
      | some r => some ([' '], r)
      | none => none
    let fixedAlt (nm : Str) : Option (Str × Str) :=
      if ciIsPrefixOf nm s then tryAlt nm.length else none
    match fixedAlt ("data-module".toList) with
    | some x => some x
    | none =>
    match fixedAlt ("loading".toList) with
    | some x => some x
    | none =>
    match fixedAlt ("srcset".toList) with
    | some x => some x
    | none =>
    match fixedAlt ("sizes".toList) with
    | some x => some x
    | none =>
    match fixedAlt ("alt".toList) with
    | some x => some x
    | none =>
    match fixedAlt ("title".toList) with
    | some x => some x
    | none =>
      if ciIsPrefixOf ("aria-".toList) s then
        let name := (s.drop 5).takeWhile isAttrNameChar
        if name = [] then none else tryAlt (5 + name.length)
      else none
  else none

/-- `\bword\b` (case-insensitive) replaced by `repl`. -/
def tryWordRemove (w repl : Str) (rdone : Str) (s : Str) : Option (Str × Str) :=
  if prevNonWord rdone ∧ ciIsPrefixOf w s ∧ boundaryOk (s.drop w.length) then
    some (repl, s.drop w.length)
  else none

def isRomanIVX (c : Char) : Bool :=
  c = 'I' || c = 'V' || c = 'X'

/-- `[IVX]{1,4}\b`, greedy with backtracking on the trailing word
boundary: the longest k ≤ 4 roman characters followed by a boundary. -/
def romanTake (s : Str) : Option (Str × Str) :=
  let run := (s.takeWhile isRomanIVX).take 4
  let rec pick : Nat → Option (Str × Str)
    | 0 => none
    | k + 1 =>
      if k + 1 ≤ run.length ∧ boundaryOk (s.drop (k + 1)) then
        some (s.take (k + 1), s.drop (k + 1))
      else pick k
  pick 4

/-- `\s*-\s*`: whitespace, a mandatory `-`, whitespace. -/
def parseDashSep (l : Str) : Option Str :=
  match l.dropWhile (fun x => isJsWs x) with
  | '-' :: r2 => some (r2.dropWhile (fun x => isJsWs x))
  | _ => none

/-- `\b(U\d{1,2}|U\d{1,2}\s*\(.*?\))\s*-\s*([IVX]{1,4})\b` replaced by
`"$1-$2"` (case-sensitive); the first alternative is tried first, the
lazy parenthesis body stops at the first `)` and cannot cross a
newline. -/
def tryURomanSuffix (rdone : Str) (s : Str) : Option (Str × Str) :=
  if prevNonWord rdone then
    match s with
    | 'U' :: tail =>
      let digits := (tail.takeWhile Char.isDigit).take 2
      if digits = [] then none
      else
        let afterD := tail.drop digits.length
        let alt1 :=
          match parseDashSep afterD with
          | some r2 =>
            match romanTake r2 with
            | some (g2, rest) => some (('U' :: digits) ++ '-' :: g2, rest)
            | none => none
          | none => none
        match alt1 with
        | some x => some x
        | none =>
          let ws := afterD.takeWhile (fun x => isJsWs x)
          match afterD.drop ws.length with
          | '(' :: inner =>
            let body := inner.takeWhile (fun c => ¬ (c = ')' ∨ c = '\n'))
            match inner.drop body.length with
            | ')' :: afterP =>
              match parseDashSep afterP with
              | some r2 =>
                match romanTake r2 with
                | some (g2, rest) =>
                  some ((('U' :: digits) ++ ws ++ '(' :: body ++ [')']) ++ '-' :: g2, rest)
                | none => none
              | none => none
            | _ => none
          | _ => none
    | _ => none
  else none

def isTeamLetter (c : Char) : Bool :=
  ('A' ≤ c ∧ c ≤ 'Z') || ('a' ≤ c ∧ c ≤ 'z') ||
    c = 'Ä' || c = 'Ö' || c = 'Ü' || c = 'ä' || c = 'ö' || c = 'ü' || c = 'ß'

/-- `\b([A-Za-zÄÖÜäöüß]{2,})\s*-\s*([IVX]{1,4})\b` replaced by
`"$1-$2"` (case-sensitive); the letter run is greedy and maximal. -/
def tryWordRoman (rdone : Str) (s : Str) : Option (Str × Str) :=
  if prevNonWord rdone then
    let run := s.takeWhile isTeamLetter
    if 2 ≤ run.length then
      match parseDashSep (s.drop run.length) with
      | some r2 =>
        match romanTake r2 with
        | some (g2, rest) => some (run ++ '-' :: g2, rest)
        | none => none
      | none => none
    else none
  else none

/-- Embeds `cleanText` from route.ts (lines 82-123): the full ordered
replace chain — script/style blocks, `<img>`, `<svg>` blocks, all
remaining tags, the nbsp entities and U+00A0, the flattened-attribute
debris rules, the literal `BfvImage`/`lazy` tokens, leftover
angle/quote characters, the two roman-suffix spacing rules, and the
final whitespace collapse and trim. -/
def cleanText (s : Str) : Str :=
  let t1 := runScan (tryBlock ("<script".toList) ("</script>".toList)) s
  let t2 := runScan (tryBlock ("<style".toList) ("</style>".toList)) t1
  let t3 := runScan tryImg t2
  let t4 := runScan (tryBlock ("<svg".toList) ("</svg>".toList)) t3
  let t5 := runScan tryTag t4
  let t6 := runScan tryEntity t5
  let t7 := t6.map (fun c => if c = ' ' then ' ' else c)
  let t8 := runScan tryDataImgTitle t7
  let t9 := runScan tryDataAttr t8
  let t10 := runScan tryAttrList t9
  let t11 := runScan (tryWordRemove ("BfvImage".toList) [' ']) t10
  let t12 := runScan (tryWordRemove ("lazy".toList) [' ']) t11
  let t13 := t12.map (fun c => if c = '<' ∨ c = '>' ∨ c = '"' then ' ' else c)
  let t14 := runScan tryURomanSuffix t13
  let t15 := runScan tryWordRoman t14
  trimL (collapseRuns (fun c => isJsWs c) ' ' t15)

def dropWhileEnd (p : Char → Bool) (s : Str) : Str :=
  (s.reverse.dropWhile p).reverse

def isLeadTrimChar (c : Char) : Bool :=
  c = '\'' || c = '|' || c = ' ' || c = '-'

/-- The shared tail `\s*(?:\/\s*)?\d{1,2}[:.]\d{2}(?:\s*Uhr)?\s*` of the
two leading date/time strip rules (case-insensitive). -/
def dateTimeTail (l : Str) : Option Str :=
  let a := l.dropWhile (fun x => isJsWs x)
  let a2 :=
    match a with
    | '/' :: r => r.dropWhile (fun x => isJsWs x)
    | _ => a
  let parseHM (m : Str) : Option Str :=
    match m with
    | s1 :: s2 :: rest => if s1.isDigit ∧ s2.isDigit then some rest else none
    | _ => none
  let afterHour : Option Str :=
    match a2 with
    | d1 :: d2 :: sep :: rest =>
      if d1.isDigit ∧ d2.isDigit ∧ (sep = ':' ∨ sep = '.') then parseHM rest
      else if d1.isDigit ∧ (d2 = ':' ∨ d2 = '.') then parseHM (sep :: rest)
      else none
    | [_, _] => none
    | _ => none
  match afterHour with
  | none => none
  | some afterMM =>
    let w := afterMM.dropWhile (fun x => isJsWs x)
    if ciIsPrefixOf ("uhr".toList) w ∧
        (boundaryOk (w.drop 3) ∨ true) then
      some ((w.drop 3).dropWhile (fun x => isJsWs x))
    else
      some (afterMM.dropWhile (fun x => isJsWs x))

/-- `^\d{2}\.\d{2}\.\d{4}` followed by the date/time tail, removed once
when anchored at the start (the first strip rule of
`cleanBfvSummary`). -/
def dateStrip1 (s : Str) : Str :=
  match s with
  | a1 :: a2 :: '.' :: b1 :: b2 :: '.' :: c1 :: c2 :: c3 :: c4 :: rest =>
    if a1.isDigit ∧ a2.isDigit ∧ b1.isDigit ∧ b2.isDigit ∧
        c1.isDigit ∧ c2.isDigit ∧ c3.isDigit ∧ c4.isDigit then
      match dateTimeTail rest with
      | some r => r
      | none => s
    else s
  | _ => s

/-- `^\.?\d{4}` followed by the date/time tail, removed once when anchored
at the start (the second strip rule of `cleanBfvSummary`). -/
def dateStrip2 (s : Str) : Str :=
  let core (l : Str) : Option Str :=
    match l with
    | c1 :: c2 :: c3 :: c4 :: rest =>
      if c1.isDigit ∧ c2.isDigit ∧ c3.isDigit ∧ c4.isDigit then dateTimeTail rest
      else none
    | _ => none
  match s with
  | '.' :: rest =>
    match core rest with
    | some r => r
    | none => s
  | _ =>
    match core s with
    | some r => r
    | none => s

/-- The negative lookbehind `(?<!U\d{1,2}-)` of the roman-marker rule
(case-insensitive): the consumed prefix must not end in `U` + one or two
digits + `-`. -/
def lookbehindU (rdone : Str) : Bool :=
  match rdone with
  | '-' :: d1 :: tail =>
    d1.isDigit &&
      ((match tail with
        | u :: _ => u == 'u' || u == 'U'
        | [] => false) ||
       (match tail with
        | d2 :: u2 :: _ => d2.isDigit && (u2 == 'u' || u2 == 'U')
        | _ => false))
  | _ => false

/-- `\b(?<!U\d{1,2}-)(?:I|II|III|IV|V|VI|VII|VIII|IX|X)\b`
(case-insensitive) replaced by one space — lone roman markers; the
alternatives are tried in source order, each requiring a trailing word
boundary. -/
def tryRomanMarker (rdone : Str) (s : Str) : Option (Str × Str) :=
  if prevNonWord rdone ∧ ¬ lookbehindU rdone then
    let tryAlt (w : Str) : Option (Str × Str) :=
      if ciIsPrefixOf w s ∧ boundaryOk (s.drop w.length) then
        some ([' '], s.drop w.length)
      else none
    match tryAlt ("i".toList) with
    | some x => some x
    | none =>
    match tryAlt ("ii".toList) with
    | some x => some x
    | none =>
    match tryAlt ("iii".toList) with
    | some x => some x
    | none =>
    match tryAlt ("iv".toList) with
    | some x => some x
    | none =>
    match tryAlt ("v".toList) with
    | some x => some x
    | none =>
    match tryAlt ("vi".toList) with
    | some x => some x
    | none =>
    match tryAlt ("vii".toList) with
    | some x => some x
    | none =>
    match tryAlt ("viii".toList) with
    | some x => some x
    | none =>
    match tryAlt ("ix".toList) with
    | some x => some x
    | none => tryAlt ("x".toList)
  else none

/-- `\s*-\s*:\s*-\s*` replaced by `" - "`. -/
def trySepColon (_ : Str) (s : Str) : Option (Str × Str) :=
  match s.dropWhile (fun x => isJsWs x) with
  | '-' :: r1 =>
    match r1.dropWhile (fun x => isJsWs x) with
    | ':' :: r2 =>
      match r2.dropWhile (fun x => isJsWs x) with
      | '-' :: r3 => some ((" - ".toList), r3.dropWhile (fun x => isJsWs x))
      | _ => none
    | _ => none
  | _ => none

/-- `^\s*[\/\-|]+\s*` removed once when anchored at the start. -/
def leadSlashDashPipe (s : Str) : Str :=
  let a := s.dropWhile (fun x => isJsWs x)
  let b := a.dropWhile (fun c => c = '/' || c = '-' || c = '|')
  if b.length < a.length then b.dropWhile (fun x => isJsWs x) else s

/-- `\s*\/\s*` replaced by one space. -/
def trySlashWs (_ : Str) (s : Str) : Option (Str × Str) :=
  match s.dropWhile (fun x => isJsWs x) with
  | '/' :: r1 => some ([' '], r1.dropWhile (fun x => isJsWs x))
  | _ => none

/-- `\s*-\s*` replaced by `" - "`. -/
def tryDashWs (_ : Str) (s : Str) : Option (Str × Str) :=
  match s.dropWhile (fun x => isJsWs x) with
  | '-' :: r1 => some ((" - ".toList), r1.dropWhile (fun x => isJsWs x))
  | _ => none

/-- `\s{2,}` replaced by one space (runs of length 1 are untouched). -/
def tryMultiWs (_ : Str) (s : Str) : Option (Str × Str) :=
  let run := s.takeWhile (fun x => isJsWs x)
  if 2 ≤ run.length then some ([' '], s.drop run.length) else none

/-- Embeds `cleanBfvSummary` from route.ts (lines 125-158): `cleanText`,
whitespace collapse, leading/trailing `'| -` trims, the two leading
date/time strips, removal of leftover `data-module`/`data-img-title`
tokens and lone roman markers (with the `U\d{1,2}-` lookbehind),
whitespace collapse, the `- : -` separator normalization, `Uhr`
removal, leading separator strip, pipe/slash layout cleanup, dash
spacing normalization and the final multi-space collapse and trim. -/
def cleanBfvSummary (s : Str) : Str :=
  let t1 := trimL (dropWhileEnd isLeadTrimChar
    (List.dropWhile isLeadTrimChar
      (collapseRuns (fun c => isJsWs c) ' ' (cleanText s))))
  let t2 := dateStrip2 (dateStrip1 t1)
  let t3 := runScan (tryWordRemove ("data-module".toList) []) t2
  let t4 := runScan (tryWordRemove ("data-img-title".toList) []) t3
  let t5 := trimL (collapseRuns (fun c => isJsWs c) ' ' (runScan tryRomanMarker t4))
  let t6 := runScan trySepColon t5
  let t7 := leadSlashDashPipe (runScan (tryWordRemove ("Uhr".toList) [' ']) t6)
  let t8 := t7.map (fun c => if c = '|' then ' ' else c)
  let t9 := runScan tryDashWs (runScan trySlashWs t8)
  trimL (runScan tryMultiWs t9)

/-- C9 counterexample: the normalizer contains no encoding-repair
replacements.  The canonical UTF-8-mangled-as-Latin-1 form of "München"
(`MÃ¼nchen`) passes through `cleanText` and `cleanBfvSummary` completely
unchanged, and the cleaned output does not contain the correctly-encoded
word. -/
theorem mojibake_not_repaired_counterexample :
    cleanText ("MÃ¼nchen".toList) = ("MÃ¼nchen".toList) ∧
      cleanBfvSummary ("MÃ¼nchen".toList) = ("MÃ¼nchen".toList) ∧
      containsSub (cleanText ("MÃ¼nchen".toList)) ("München".toList) = false ∧
      containsSub (cleanBfvSummary ("MÃ¼nchen".toList)) ("München".toList) = false := by
  exact ⟨by decide, by decide, by decide, by decide⟩

/-- C9 (amended): neither `cleanText` nor `cleanBfvSummary` performs any
encoding repair: the UTF-8-as-Latin-1 mangled forms of all three recurring
words — "München", "Straße", "Feldbergstraße" — pass through both
cleaners unchanged, and none of the cleaned outputs contains its
correctly-encoded word. -/
theorem mojibake_passes_through_unrepaired :
    (cleanText ("MÃ¼nchen".toList) = ("MÃ¼nchen".toList) ∧
      cleanBfvSummary ("MÃ¼nchen".toList) = ("MÃ¼nchen".toList) ∧
      containsSub (cleanBfvSummary ("MÃ¼nchen".toList)) ("München".toList) = false) ∧
    (cleanText ("StraÃ\u009Fe".toList) = ("StraÃ\u009Fe".toList) ∧
      cleanBfvSummary ("StraÃ\u009Fe".toList) = ("StraÃ\u009Fe".toList) ∧
      containsSub (cleanBfvSummary ("StraÃ\u009Fe".toList)) ("Straße".toList) = false) ∧
    (cleanText ("FeldbergstraÃ\u009Fe".toList) = ("FeldbergstraÃ\u009Fe".toList) ∧
      cleanBfvSummary ("FeldbergstraÃ\u009Fe".toList) = ("FeldbergstraÃ\u009Fe".toList) ∧
      containsSub (cleanBfvSummary ("FeldbergstraÃ\u009Fe".toList)) ("Feldbergstraße".toList) = false) := by
  refine ⟨⟨by decide, by decide, by decide⟩, ⟨by decide, by decide, by decide⟩,
    ⟨by decide, by decide, by decide⟩⟩

/- =========================
   C8: HTML extraction and de-duplication
   (route.ts, `uidFrom` lines 160-163, `teamNameFromBfvTeamUrl` lines
   209-223, `parseAllFromHtml` lines 286-367)
========================= -/

def HOME_FALLBACK_LOCATION : Str :=
  "BSA Feldbergstraße, Feldbergstr. 65, 81825 München".toList

/-- The capture groups of one match of the kickoff-anchor regex
`(\d{2})\.(\d{2})\.(\d{4})[^0-9]{0,120}(\d{1,2})[:.](\d{2})(?:\s*Uhr)?`. -/
structure AnchorCapture where
  dd : Nat
  mm : Nat
  yyyy : Nat
  hh : Nat
  mi : Nat
deriving Repr, DecidableEq

/-- An anchor match together with `m.index`. -/
structure AnchorMatch where
  dd : Nat
  mm : Nat
  yyyy : Nat
  hh : Nat
  mi : Nat
  index : Nat
deriving Repr, DecidableEq

/-- One attempt of the kickoff-anchor regex at the current position:
day.month.year, a non-digit gap of at most 120 characters, one or two
hour digits, `:` or `.`, two minute digits, optionally whitespace and a
case-insensitive `Uhr` (consumed greedily, affecting only where the next
search resumes). -/
def tryAnchor (s : Str) : Option (AnchorCapture × Str) :=
  match s with
  | a1 :: a2 :: '.' :: b1 :: b2 :: '.' :: c1 :: c2 :: c3 :: c4 :: rest =>
    if a1.isDigit ∧ a2.isDigit ∧ b1.isDigit ∧ b2.isDigit ∧
        c1.isDigit ∧ c2.isDigit ∧ c3.isDigit ∧ c4.isDigit then
      let run := rest.takeWhile (fun c => ¬ c.isDigit)
      if run.length ≤ 120 then
        match rest.drop run.length with
        | h1 :: t1 =>
          if h1.isDigit then
            let hourMin : Option (Nat × Str) :=
              match t1 with
              | h2 :: sep :: t2 =>
                if h2.isDigit ∧ (sep = ':' ∨ sep = '.') then some (num2 h1 h2, t2)
                else
                  if (h2 = ':' ∨ h2 = '.') then some (h1.toNat - 48, sep :: t2) else none
              | [h2] => if (h2 = ':' ∨ h2 = '.') then none else none
              | [] => none
            match hourMin with
            | some (hh, t3) =>
              match t3 with
              | m1 :: m2 :: t4 =>
                if m1.isDigit ∧ m2.isDigit then
                  let t5 := t4.dropWhile (fun x => isJsWs x)
                  let t6 := if ciIsPrefixOf ("uhr".toList) t5 then t5.drop 3 else t4
                  some ({ dd := num2 a1 a2, mm := num2 b1 b2, yyyy := num4 c1 c2 c3 c4,
                          hh := hh, mi := num2 m1 m2 }, t6)
                else none
              | _ => none
            | none => none
          else none
        | [] => none
      else none
    else none
  | _ => none

def anchorScanAux : Nat → Nat → Str → List AnchorMatch
  | 0, _, _ => []
  | _ + 1, _, [] => []
  | n + 1, pos, c :: rest =>
    match tryAnchor (c :: rest) with
    | some (cap, rest2) =>
      let consumed := (c :: rest).length - rest2.length
      { dd := cap.dd, mm := cap.mm, yyyy := cap.yyyy, hh := cap.hh, mi := cap.mi,
        index := pos } :: anchorScanAux n (pos + consumed) rest2
    | none => anchorScanAux n (pos + 1) rest

/-- The stream of successive `re.exec(html)` matches of the kickoff-anchor
regex (the `while` loop driver of `parseAllFromHtml`), with `lastIndex`
resuming after each match. -/
def anchorScan (html : Str) : List AnchorMatch :=
  anchorScanAux html.length 0 html

/-- The `new Date(yyyy, mm - 1, dd, hh, mi, 0)` of `parseAllFromHtml`,
recorded by its calendar components (`mo` is the one-based month; the JS
constructor's rollover normalization of out-of-range components is not
modelled — schedule pages supply in-range dates). -/
def anchorStart (a : AnchorMatch) : DateT :=
  { y := a.yyyy, mo := a.mm, d := a.dd, h := a.hh, mi := a.mi, s := 0, utc := false }

/-- Injective rendering of a date's components, the model of
`start.toISOString()` (the timezone conversion inside `toISOString` is an
injective map of instants, so equality of keys is preserved). -/
def toIsoModel (d : DateT) : Str :=
  (toString d.y).toList ++ '-' :: (toString d.mo).toList ++ '-' :: (toString d.d).toList ++
    'T' :: (toString d.h).toList ++ ':' :: (toString d.mi).toList ++
    ':' :: (toString d.s).toList ++ (if d.utc then ['Z'] else [])

/-- Embeds `uidFrom` from route.ts: the sha1 hex digest of
`start.toISOString() + "|" + summary`.  The hash is modelled by the key
itself: sha1 is assumed collision-free, so key equality coincides with
digest equality. -/
def uidFrom (summary : Str) (start : DateT) : Str :=
  toIsoModel start ++ '|' :: summary

def isLeapYear (y : Nat) : Bool :=
  (y % 4 = 0 && y % 100 ≠ 0) || y % 400 = 0

def daysInMonth (y m : Nat) : Nat :=
  if m = 2 then (if isLeapYear y then 29 else 28)
  else if m = 4 ∨ m = 6 ∨ m = 9 ∨ m = 11 then 30
  else 31

/-- `addMinutes(start, 90)` on the calendar components (at most one day of
rollover is possible). -/
def addMinutes90 (d : DateT) : DateT :=
  let total := d.h * 60 + d.mi + 90
  let mi2 := total % 60
  let h2 := (total / 60) % 24
  let dayAdd := total / 60 / 24
  let day2 := d.d + dayAdd
  if day2 > daysInMonth d.y d.mo then
    if d.mo = 12 then { d with y := d.y + 1, mo := 1, d := day2 - daysInMonth d.y d.mo, h := h2, mi := mi2 }
    else { d with mo := d.mo + 1, d := day2 - daysInMonth d.y d.mo, h := h2, mi := mi2 }
  else { d with d := day2, h := h2, mi := mi2 }

/-- Embeds `teamNameFromBfvTeamUrl` from route.ts: the path segment after
`mannschaften` (or the second-to-last segment), dashes to spaces; when
URL parsing fails, the regex fallback `\/mannschaften\/([^\/]+)\//`. -/
def mannschaftenFallback : Str → Str
  | [] => []
  | c :: rest =>
    if startsWithL (c :: rest) ("/mannschaften/".toList) then
      let afterPre := (c :: rest).drop 14
      let cap := afterPre.takeWhile (fun x => x ≠ '/')
      if cap ≠ [] ∧ afterPre.drop cap.length ≠ [] then
        cap.map (fun x => if x = '-' then ' ' else x)
      else mannschaftenFallback rest
    else mannschaftenFallback rest

def teamNameFromBfvTeamUrl (teamUrl : Str) : Str :=
  match parseUrl teamUrl with
  | some u =>
    let parts := (splitOnCharL '/' u.pathname).filter (fun p => p ≠ [])
    let slug : Str :=
      match parts.findIdx? (fun p => decide (p = ("mannschaften".toList))) with
      | some i => (parts.drop (i + 1)).headD []
      | none => if 2 ≤ parts.length then (parts.drop (parts.length - 2)).headD [] else []
    if slug = [] then []
    else slug.map (fun c => if c = '-' then ' ' else c)
  | none => mannschaftenFallback teamUrl

/-- The route's `ParsedEvent` record (`end` is `endTime`). -/
structure ParsedEvent where
  uid : Str
  start : DateT
  endTime : DateT
  summary : Str
  location : Str
deriving Repr, DecidableEq

/-- The event `parseAllFromHtml` pushes for a surviving candidate
(route.ts lines 332-355): uid from the once-cleaned summary and the
start date, end 90 minutes later, the twice-cleaned summary, and the
extracted location with the home/away fallback. -/
def buildEvent (extractLoc : Str → Str) (textWindow teamHint summary : Str)
    (start : DateT) : ParsedEvent :=
  let summaryClean := cleanBfvSummary summary
  let home := isHomeGame summaryClean teamHint
  let loc0 := extractLoc textWindow
  { uid := uidFrom summary start
    start := start
    endTime := addMinutes90 start
    summary := summaryClean
    location :=
      if loc0 = [] then (if home then HOME_FALLBACK_LOCATION else ("Auswärts".toList))
      else loc0 }

/-- One attempt of `\d{1,2}[:.]\d{2}(?:\s*Uhr)?` at the current
position, returning the remainder after the (greedily extended) match. -/
def tryTimeAt (l : Str) : Option Str :=
  let finish (r : Str) : Str :=
    let w := r.dropWhile (fun x => isJsWs x)
    if ciIsPrefixOf ("uhr".toList) w then w.drop 3 else r
  match l with
  | d1 :: d2 :: sep :: rest =>
    if d1.isDigit ∧ d2.isDigit ∧ (sep = ':' ∨ sep = '.') then
      match rest with
      | m1 :: m2 :: r => if m1.isDigit ∧ m2.isDigit then some (finish r) else none
      | _ => none
    else if d1.isDigit ∧ (d2 = ':' ∨ d2 = '.') then
      match sep :: rest with
      | m1 :: m2 :: r => if m1.isDigit ∧ m2.isDigit then some (finish r) else none
      | _ => none
    else none
  | _ => none

def findTimeLazy : Str → Option Str
  | [] => none
  | c :: rest =>
    match tryTimeAt (c :: rest) with
    | some r => some r
    | none => if c = '\n' then none else findTimeLazy rest

/-- `textWindow.replace(/^.*?\d{1,2}[:.]\d{2}(?:\s*Uhr)?/i, "")`: remove
everything up to and including the first time pattern reachable without
crossing a newline; when no such match exists the string is unchanged. -/
def afterTimeCut (s : Str) : Str :=
  (findTimeLazy s).getD s

/-- `.replace(/Zum Spiel.*$/i, "")`: cut from the first case-insensitive
`Zum Spiel` that is followed only by non-newline characters up to the end
of the string (`$` without the `m` flag, `.` not matching newlines). -/
def zumCut : Str → Str
  | [] => []
  | c :: rest =>
    if ciIsPrefixOf ("zum spiel".toList) (c :: rest) ∧
        ((c :: rest).drop 9).all (fun x => x ≠ '\n') then []
    else c :: zumCut rest

/-- The text window of an anchor: `html.slice(m.index, m.index + 5200)`
passed through `cleanText`. -/
def candWindow (html : Str) (a : AnchorMatch) : Str :=
  cleanText ((html.drop a.index).take 5200)

/-- The carved summary of an anchor (route.ts lines 313-321): cut
everything through the matched time, cut the `Zum Spiel` tail, trim,
clean; fall back to the first 220 characters of the text window when
empty. -/
def candSummary (html : Str) (a : AnchorMatch) : Str :=
  let s1 := cleanBfvSummary (trimL (zumCut (afterTimeCut (candWindow html a))))
  if s1 = [] then cleanBfvSummary ((candWindow html a).take 220) else s1

/-- The per-candidate computation of the `while` body of
`parseAllFromHtml` up to (but excluding) the seen-set test: the carved
summary and the `historie`/`saison` filters.  The event fields the source
computes after the seen-set test (end, home, location) are independent of
the seen set, so they are folded into the candidate.  `extractLoc` stands
for `extractLocationFromTextWindow`, which only ever affects the
`location` field. -/
def processAnchor (extractLoc : Str → Str) (html teamHint : Str)
    (a : AnchorMatch) : Option ParsedEvent :=
  if candSummary html a = [] then none
  else if containsSub (toLowerL (candSummary html a)) ("historie".toList) = true ∨
      containsSub (toLowerL (candSummary html a)) ("saison".toList) = true then none
  else some (buildEvent extractLoc (candWindow html a) teamHint (candSummary html a)
    (anchorStart a))

/-- The seen-set loop of `parseAllFromHtml` (route.ts lines 299-356): a
candidate whose uid was already pushed in this run is skipped
(`skippedDupes`), otherwise its uid is recorded and the event pushed. -/
def parseLoopAux (extractLoc : Str → Str) (html teamHint : Str) :
    List AnchorMatch → List Str → List ParsedEvent
  | [], _ => []
  | a :: rest, seen =>
    match processAnchor extractLoc html teamHint a with
    | none => parseLoopAux extractLoc html teamHint rest seen
    | some e =>
      if e.uid ∈ seen then parseLoopAux extractLoc html teamHint rest seen
      else e :: parseLoopAux extractLoc html teamHint rest (e.uid :: seen)

def timeKey (d : DateT) : Nat :=
  (((d.y * 13 + d.mo) * 32 + d.d) * 24 + d.h) * 60 + d.mi

/-- `events.sort((a, b) => a.start.getTime() - b.start.getTime())`: a
stable sort by start time (the key is order-isomorphic to `getTime` for
in-range components). -/
def sortByStart (l : List ParsedEvent) : List ParsedEvent :=
  List.insertionSort (fun a b => timeKey a.start ≤ timeKey b.start) l

/-- Embeds `parseAllFromHtml` from route.ts (events component): scan the
anchors, run the carve/filter/dedup loop, sort by start time. -/
def parseAllFromHtml (extractLoc : Str → Str) (html teamUrl : Str) : List ParsedEvent :=
  sortByStart
    (parseLoopAux extractLoc html (teamNameFromBfvTeamUrl teamUrl) (anchorScan html) [])

/-- Specification-side de-duplication: keep the first event of each uid. -/
def dedupByUidFirstAux (seen : List Str) : List ParsedEvent → List ParsedEvent
  | [] => []
  | e :: rest =>
    if e.uid ∈ seen then dedupByUidFirstAux seen rest
    else e :: dedupByUidFirstAux (e.uid :: seen) rest

def dedupByUidFirst (l : List ParsedEvent) : List ParsedEvent :=
  dedupByUidFirstAux [] l

/-- The candidates of one run, before de-duplication. -/
def candidateEvents (extractLoc : Str → Str) (html teamHint : Str) : List ParsedEvent :=
  (anchorScan html).filterMap (processAnchor extractLoc html teamHint)

theorem parseLoopAux_eq_dedup (extractLoc : Str → Str) (html teamHint : Str) :
    ∀ (anchors : List AnchorMatch) (seen : List Str),
      parseLoopAux extractLoc html teamHint anchors seen =
        dedupByUidFirstAux seen
          (anchors.filterMap (processAnchor extractLoc html teamHint)) := by
  intro anchors
  induction anchors with
  | nil => intro seen; simp [parseLoopAux, dedupByUidFirstAux]
  | cons a rest ih =>
    intro seen
    cases hp : processAnchor extractLoc html teamHint a with
    | none =>
      have hl : parseLoopAux extractLoc html teamHint (a :: rest) seen =
          parseLoopAux extractLoc html teamHint rest seen := by
        rw [parseLoopAux, hp]
      have hr : (a :: rest).filterMap (processAnchor extractLoc html teamHint) =
          rest.filterMap (processAnchor extractLoc html teamHint) := by
        rw [List.filterMap_cons, hp]
      rw [hl, hr]
      exact ih seen
    | some e =>
      have hl : parseLoopAux extractLoc html teamHint (a :: rest) seen =
          (if e.uid ∈ seen then parseLoopAux extractLoc html teamHint rest seen
           else e :: parseLoopAux extractLoc html teamHint rest (e.uid :: seen)) := by
        rw [parseLoopAux, hp]
      have hr : (a :: rest).filterMap (processAnchor extractLoc html teamHint) =
          e :: rest.filterMap (processAnchor extractLoc html teamHint) := by
        rw [List.filterMap_cons, hp]
      rw [hl, hr, dedupByUidFirstAux]
      split
      · exact ih seen
      · rw [ih (e.uid :: seen)]

theorem dedupAux_uid_props : ∀ (l : List ParsedEvent) (seen : List Str),
    ((dedupByUidFirstAux seen l).map (fun e => e.uid)).Nodup ∧
      ∀ u ∈ (dedupByUidFirstAux seen l).map (fun e => e.uid), u ∉ seen := by
  intro l
  induction l with
  | nil => intro seen; simp [dedupByUidFirstAux]
  | cons e rest ih =>
    intro seen
    by_cases h : e.uid ∈ seen
    · simpa [dedupByUidFirstAux, h] using ih seen
    · have hrec := ih (e.uid :: seen)
      rw [dedupByUidFirstAux, if_neg h]
      constructor
      · rw [List.map_cons, List.nodup_cons]
        refine ⟨fun hmem => ?_, hrec.1⟩
        exact (hrec.2 e.uid hmem) (by simp)
      · intro u hu
        rw [List.map_cons] at hu
        rcases List.mem_cons.mp hu with rfl | hu2
        · exact h
        · intro hseen
          exact (hrec.2 u hu2) (List.mem_cons_of_mem _ hseen)

theorem dedupAux_subset : ∀ (l : List ParsedEvent) (seen : List Str) (e : ParsedEvent),
    e ∈ dedupByUidFirstAux seen l → e ∈ l := by
  intro l
  induction l with
  | nil => intro seen e h; simp [dedupByUidFirstAux] at h
  | cons x rest ih =>
    intro seen e h
    rw [dedupByUidFirstAux] at h
    split at h
    · exact List.mem_cons_of_mem _ (ih seen e h)
    · rcases List.mem_cons.mp h with rfl | h2
      · exact List.mem_cons_self _ _
      · exact List.mem_cons_of_mem _ (ih _ e h2)

theorem buildEvent_uid (eL : Str → Str) (tw tH s : Str) (st : DateT) :
    (buildEvent eL tw tH s st).uid = uidFrom s st := rfl

theorem buildEvent_start (eL : Str → Str) (tw tH s : Str) (st : DateT) :
    (buildEvent eL tw tH s st).start = st := rfl

theorem buildEvent_summary (eL : Str → Str) (tw tH s : Str) (st : DateT) :
    (buildEvent eL tw tH s st).summary = cleanBfvSummary s := by
  simp only [buildEvent]

theorem processAnchor_shape (extractLoc : Str → Str) (html teamHint : Str)
    (a : AnchorMatch) (e : ParsedEvent)
    (hp : processAnchor extractLoc html teamHint a = some e) :
    ∃ s0, e.uid = uidFrom s0 e.start ∧ e.summary = cleanBfvSummary s0 := by
  rw [processAnchor] at hp
  by_cases h1 : candSummary html a = []
  · rw [if_pos h1] at hp
    exact Option.noConfusion hp
  · rw [if_neg h1] at hp
    by_cases h2 : containsSub (toLowerL (candSummary html a)) ("historie".toList) = true ∨
        containsSub (toLowerL (candSummary html a)) ("saison".toList) = true
    · rw [if_pos h2] at hp
      exact Option.noConfusion hp
    · rw [if_neg h2] at hp
      injection hp with he
      subst he
      exact ⟨candSummary html a,
        by rw [buildEvent_uid, buildEvent_start],
        by rw [buildEvent_summary]⟩

theorem sortByStart_perm (l : List ParsedEvent) : List.Perm (sortByStart l) l :=
  List.perm_insertionSort _ l

/-- C8: within one HTML-extraction run, `parseAllFromHtml` equals the sort
of the first-occurrence-per-uid de-duplication of the candidate stream
(the seen-set keeps the first candidate of each identity and drops every
later one); consequently the returned event list has pairwise-distinct
uids; and every returned event's identity is the hash of its start time
and once-cleaned summary — `uid = uidFrom s₀ start` with the stored
summary being `cleanBfvSummary s₀`. -/
theorem html_extraction_dedup_contract (extractLoc : Str → Str) (html teamUrl : Str) :
    parseAllFromHtml extractLoc html teamUrl =
        sortByStart (dedupByUidFirst
          (candidateEvents extractLoc html (teamNameFromBfvTeamUrl teamUrl))) ∧
      ((parseAllFromHtml extractLoc html teamUrl).map (fun e => e.uid)).Nodup ∧
      (∀ e ∈ parseAllFromHtml extractLoc html teamUrl,
        ∃ s0, e.uid = uidFrom s0 e.start ∧ e.summary = cleanBfvSummary s0) := by
  have heq : parseAllFromHtml extractLoc html teamUrl =
      sortByStart (dedupByUidFirst
        (candidateEvents extractLoc html (teamNameFromBfvTeamUrl teamUrl))) := by
    rw [parseAllFromHtml, dedupByUidFirst, candidateEvents,
      parseLoopAux_eq_dedup]
  refine ⟨heq, ?_, ?_⟩
  · rw [heq]
    have hperm := (sortByStart_perm (dedupByUidFirst
      (candidateEvents extractLoc html (teamNameFromBfvTeamUrl teamUrl)))).map
      (fun e => e.uid)
    exact hperm.nodup_iff.mpr (dedupAux_uid_props _ []).1
  · intro e he
    rw [heq] at he
    have he2 := (sortByStart_perm _).mem_iff.mp he
    have he3 := dedupAux_subset _ [] e he2
    rw [candidateEvents] at he3
    obtain ⟨a, _, hpa⟩ := List.mem_filterMap.mp he3
    exact processAnchor_shape extractLoc html (teamNameFromBfvTeamUrl teamUrl) a e hpa

def dummyEvent : ParsedEvent :=
  { uid := [], start := ⟨0, 0, 0, 0, 0, 0, false⟩, endTime := ⟨0, 0, 0, 0, 0, 0, false⟩,
    summary := [], location := [] }

theorem html_extraction_dedup_witness :
    ((parseAllFromHtml (fun _ => []) ("01.03.2026 10:00 A - B".toList) []).map
        (fun e => e.uid)).Nodup ∧
      (∃ s0,
        ((parseAllFromHtml (fun _ => []) ("01.03.2026 10:00 A - B".toList) []).headD
            dummyEvent).uid =
          uidFrom s0
            ((parseAllFromHtml (fun _ => []) ("01.03.2026 10:00 A - B".toList) []).headD
              dummyEvent).start ∧
        ((parseAllFromHtml (fun _ => []) ("01.03.2026 10:00 A - B".toList) []).headD
            dummyEvent).summary = cleanBfvSummary s0) := by
  constructor
  · exact (html_extraction_dedup_contract (fun _ => [])
      ("01.03.2026 10:00 A - B".toList) []).2.1
  · exact (html_extraction_dedup_contract (fun _ => [])
      ("01.03.2026 10:00 A - B".toList) []).2.2 _ (by decide)
